import Mathlib

/-!
Verification development for the obsidian-mcp-server repository.

This file gives a shallow embedding, in Lean 4, of the core pure logic of
the repository (path policy, front-matter handling, the `edit_note` content
pipeline, the connection analyzer, the folder suggester, the retriever
configuration, the indexer control flow and the note-name cache), translated
from the Python sources, together with theorems settling the claims about
that code.

Strings are modelled as `List Char` (`Str`).  Python regular-expression
operations used by the code are implemented as explicit backtracking
matchers with the exact semantics of the patterns appearing in the source
(greedy quantifier preference, `MULTILINE` anchors, `count=1` leftmost
substitution, and so on).  Floating-point quantities (similarity scores,
ensemble weights, confidences) are modelled as rationals; the float
`round(x, 2)` is modelled as decimal rounding half-to-even, which agrees
with CPython away from representation ties.
-/

/-- Strings are lists of characters. -/
abbrev Str := List Char

/-- Convert a Lean string literal to the `Str` model. -/
def str (s : String) : Str := s.toList

/-- Python `\s` / `str.isspace` on the ASCII whitespace used by the code. -/
def isPySpace (c : Char) : Bool :=
  c = ' ' || c = '\t' || c = '\n' || c = '\r' || c = '\x0b' || c = '\x0c'

/-- A single or double quote, as in the character class `["\']`. -/
def isQuoteCh (c : Char) : Bool := c = '"' || c = '\''

/-- Auxiliary scanner for Python `str.replace(old, new)` (all occurrences,
left to right, not rescanning replacements).  The `Nat` argument counts
characters of a just-matched occurrence still to be skipped. -/
def pyReplaceGo (old new : Str) : Nat → Str → Str
  | _, [] => []
  | 0, c :: rest =>
      if old.isPrefixOf (c :: rest) then
        new ++ pyReplaceGo old new (old.length - 1) rest
      else c :: pyReplaceGo old new 0 rest
  | n + 1, _ :: rest => pyReplaceGo old new n rest

/-- Python `s.replace(old, new)` for non-empty `old`. -/
def pyReplace (s old new : Str) : Str := pyReplaceGo old new 0 s

/-- Auxiliary scanner for Python `str.replace(old, new, 1)`. -/
def pyReplaceFirstGo (old new : Str) : Str → Str
  | [] => []
  | c :: rest =>
      if old.isPrefixOf (c :: rest) then
        new ++ List.drop (old.length - 1) rest
      else c :: pyReplaceFirstGo old new rest

/-- Python `s.replace(old, new, 1)` for non-empty `old`. -/
def pyReplaceFirst (s old new : Str) : Str := pyReplaceFirstGo old new s

/-- Whether `needle` occurs as a contiguous substring (Python `in`). -/
def containsSub (needle : Str) : Str → Bool
  | [] => needle.isEmpty
  | c :: rest => needle.isPrefixOf (c :: rest) || containsSub needle rest

/-- Index of the first occurrence of `needle` (Python `str.find`). -/
def findSub (needle : Str) : Str → Option Nat
  | [] => if needle.isEmpty then some 0 else none
  | c :: rest =>
      if needle.isPrefixOf (c :: rest) then some 0
      else (findSub needle rest).map (· + 1)

/-- Python `str.lower` restricted to ASCII, as used on note names. -/
def pyLower (s : Str) : Str := s.map Char.toLower

/-- Python `str.split(sep)` for a one-character separator: keeps empty
segments, always returns at least one segment. -/
def splitCh (sep : Char) : Str → List Str
  | [] => [[]]
  | c :: rest =>
      if c = sep then [] :: splitCh sep rest
      else
        match splitCh sep rest with
        | h :: t => (c :: h) :: t
        | [] => [[c]]

/-- Split a document into its lines (Python `str.split("\n")`). -/
def splitNl (s : Str) : List Str := splitCh '\n' s

/-- Inverse of `splitNl`: re-join lines with newlines. -/
def joinNl : List Str → Str
  | [] => []
  | [l] => l
  | l :: ls => l ++ '\n' :: joinNl ls

/-- Number of maximal non-whitespace runs: `len(s.split())` in Python. -/
def wordCountGo : Str → Bool → Nat
  | [], _ => 0
  | c :: rest, inWord =>
      if isPySpace c then wordCountGo rest false
      else (if inWord then 0 else 1) + wordCountGo rest true

/-- `len(content.split())`, the word-count filter of the analyzer. -/
def wordCount (s : Str) : Nat := wordCountGo s false

/-- Index of the last `'/'` in a path, if any. -/
def lastSlashIdx : Str → Option Nat
  | [] => none
  | c :: rest =>
      match lastSlashIdx rest with
      | some i => some (i + 1)
      | none => if c = '/' then some 0 else none

/-- `os.path.basename` for POSIX paths. -/
def pyBasename (p : Str) : Str :=
  match lastSlashIdx p with
  | none => p
  | some i => p.drop (i + 1)

/-- `os.path.dirname` for POSIX paths. -/
def pyDirname (p : Str) : Str :=
  match lastSlashIdx p with
  | none => []
  | some i =>
      let head := p.take (i + 1)
      if head.all (· = '/') then head
      else (head.reverse.dropWhile (· = '/')).reverse

/-- Python `str.lstrip()` (strip leading whitespace). -/
def pyLstrip (s : Str) : Str := s.dropWhile isPySpace

/-- Python `str.rstrip()` (strip trailing whitespace). -/
def pyRstrip (s : Str) : Str := (s.reverse.dropWhile isPySpace).reverse

/-- Python `str.strip()`. -/
def pyStrip (s : Str) : Str := pyRstrip (pyLstrip s)

/-- Decimal digits of a natural number. -/
def natStr (n : Nat) : Str := (toString n).toList

/-- Zero-pad a number to two digits (`%02d`). -/
def pad2 (n : Nat) : Str := if n < 10 then '0' :: natStr n else natStr n

/-- Zero-pad a number to four digits (`%04d`), enough for calendar years. -/
def pad4 (n : Nat) : Str :=
  if n < 10 then '0' :: '0' :: '0' :: natStr n
  else if n < 100 then '0' :: '0' :: natStr n
  else if n < 1000 then '0' :: natStr n
  else natStr n

/-- Stable insertion used to model Python's stable sorts: `a` is placed
before the first element `b` with `before a b`. -/
def insertStable {α : Type} (before : α → α → Bool) (a : α) : List α → List α
  | [] => [a]
  | b :: t => if before a b then a :: b :: t else b :: insertStable before a t

/-- Stable sort (insertion sort): equal elements keep their input order
when `before` is reflexive-on-ties, matching Python `sorted`/`list.sort`. -/
def sortStable {α : Type} (before : α → α → Bool) : List α → List α
  | [] => []
  | a :: t => insertStable before a (sortStable before t)

/-- Leading run of Python whitespace. -/
def wsRun (s : Str) : Nat := (s.takeWhile isPySpace).length

/-- Leading run of characters allowed in the class `[^"'\n]`. -/
def valRun (s : Str) : Nat :=
  (s.takeWhile (fun c => !isQuoteCh c && c ≠ '\n')).length

/-- Leading run of characters matched by `.` (anything but a newline). -/
def dotRun (s : Str) : Nat := (s.takeWhile (· ≠ '\n')).length

/-- `$` with `re.MULTILINE`: end of string or just before a newline. -/
def atEOL : Str → Bool
  | [] => true
  | c :: _ => c = '\n'

/-! ## Connection analyzer (`semantic/service.py`)

`suggest_connections` is modelled by `suggest_connections_core` on the
non-timeout path and by `suggest_connections` including the
`TimeLimitExceeded` handler.  The cosine-similarity matrix computed by
numpy over the surviving embeddings is a floating-point quantity; it enters
the model as a rational-valued function `sim` over positions in the list of
surviving indices, exactly as `similarity_matrix` is indexed in the code.
-/

/-- A chunk as returned by the vector store `get`: its `source` and `links`
metadata values, its text, and whether its embedding is non-null. -/
structure DbChunk where
  source : Str
  links : Str
  text : Str
  hasEmbedding : Bool
deriving DecidableEq

/-- Default chunk used for out-of-range indexing (never reached on the
index sets the functions produce). -/
def defaultChunk : DbChunk := ⟨[], [], [], false⟩

/-- Indexing helper for chunk lists. -/
def chunkAt (chunks : List DbChunk) (i : Nat) : DbChunk :=
  chunks.getD i defaultChunk

/-- `CARPETAS_EXCLUIDAS` from `semantic/service.py`. -/
def CARPETAS_EXCLUIDAS : List Str :=
  [str "00_Sistema", str "ZZ_Plantillas", str "04_Recursos/Obsidian",
   str ".agent", str ".trash", str ".git", str ".obsidian", str ".gemini",
   str ".space", str ".makemd", str ".obsidianrag"]

/-- Prefix match of `.*` followed by a literal and then continuation `k`:
the boolean semantics of `re.match` for the patterns in
`PATRONES_EXCLUIDOS` (`.` does not match a newline). -/
def reDotStarThen (lit : Str) (k : Str → Bool) : Str → Bool
  | [] => lit.isEmpty && k []
  | c :: rest =>
      (lit.isPrefixOf (c :: rest) && k (List.drop lit.length (c :: rest))) ||
      (c ≠ '\n' && reDotStarThen lit k rest)

/-- `re.match(p, filename)` over the six patterns in `PATRONES_EXCLUIDOS`. -/
def matchesPatronesExcluidos (filename : Str) : Bool :=
  reDotStarThen (str "MOC.md") (fun _ => true) filename ||
  reDotStarThen (str "Home.md") (fun _ => true) filename ||
  reDotStarThen (str "Inbox.md") (fun _ => true) filename ||
  reDotStarThen (str "Panel") (fun r => reDotStarThen (str ".md") (fun _ => true) r) filename ||
  reDotStarThen (str ".agent.md") (fun _ => true) filename ||
  (str "copilot-instructions.md").isPrefixOf filename

/-- `os.path.relpath(filepath, vault)` for the absolute paths produced by
the indexer, which all live under the vault root (the general `..`-prefix
semantics is not needed for them). -/
def pyRelpath (vault p : Str) : Str :=
  if (vault ++ ['/']).isPrefixOf p then p.drop (vault.length + 1)
  else if p = vault then str "." else p

/-- `SemanticService._should_exclude`. -/
def _should_exclude (vault filepath : Str) (carpetas_incluir : List Str)
    (excluir_mocs : Bool) : Bool :=
  let rel_path := pyRelpath vault filepath
  let filename := pyBasename filepath
  let folderExcluded :=
    if carpetas_incluir ≠ [] then
      ¬ carpetas_incluir.any (fun f => f.isPrefixOf rel_path)
    else
      CARPETAS_EXCLUIDAS.any (fun f => f.isPrefixOf rel_path)
  if folderExcluded then true
  else excluir_mocs && matchesPatronesExcluidos filename

/-- Greedy `.+` followed by `$` (multiline): longest run of non-newline
characters, of length at least one, whose end is at end-of-line. -/
def goDot : Nat → Str → Option Nat
  | 0, _ => none
  | v + 1, cs => if atEOL (cs.drop (v + 1)) then some (v + 1) else goDot v cs

/-- Attempt `.+$` at the current position. -/
def tryDotEOL (cs : Str) : Option Nat := goDot (dotRun cs) cs

/-- Greedy `\s+` (with backtracking) followed by `.+$`: returns the
amounts of whitespace and of `.` characters consumed. -/
def goWsDot : Nat → Str → Option (Nat × Nat)
  | 0, _ => none
  | n + 1, cs =>
      match tryDotEOL (cs.drop (n + 1)) with
      | some v => some (n + 1, v)
      | none => goWsDot n cs

/-- Attempt `\s+(.+)$` at the current position. -/
def wsPlusDotMatch (cs : Str) : Option (Nat × Nat) := goWsDot (wsRun cs) cs

/-- Leftmost match of `^(#{1,6})\s+(.+)$` (multiline): scanner for
`_extract_section_header`.  The boolean flag records whether the current
position is a line start. -/
def findHeaderGo : Str → Bool → Option (Str × Str)
  | [], _ => none
  | c :: rest, atStart =>
      match
        (if atStart then
          let s := c :: rest
          let hr := (s.takeWhile (· = '#')).length
          if 1 ≤ hr ∧ hr ≤ 6 then
            match wsPlusDotMatch (s.drop hr) with
            | some (w, v) => some (s.take hr, (s.drop (hr + w)).take v)
            | none => none
          else none
        else none) with
      | some r => some r
      | none => findHeaderGo rest (c = '\n')

/-- `SemanticService._extract_section_header`. -/
def _extract_section_header (content : Str) : Str :=
  match findHeaderGo content true with
  | some (g1, g2) => g1 ++ ' ' :: g2
  | none => str "Contenido General"

/-- A `ConnectionSuggestion` dictionary as built by `suggest_connections`. -/
structure Suggestion where
  note_a : Str
  note_b : Str
  similarity : ℚ
  folder_a : Str
  folder_b : Str
  words_a : Nat
  words_b : Nat
  section_a : Str
  section_b : Str
  reason : Str
deriving DecidableEq

/-- Rounding half-to-even of a rational to an integer, the decimal
idealization of CPython `round`. -/
def roundHalfEven (q : ℚ) : ℤ :=
  let f := ⌊q⌋
  let r := q - f
  if r < 1 / 2 then f
  else if 1 / 2 < r then f + 1
  else if Even f then f else f + 1

/-- Fixed two-decimal rendering, modelling the f-string `{score:.2f}`. -/
def fmt2 (q : ℚ) : Str :=
  let n := roundHalfEven (100 * q)
  (if n < 0 then ['-'] else []) ++
    natStr (n.natAbs / 100) ++ '.' :: pad2 (n.natAbs % 100)

/-- The pre-filter over chunk indices of `suggest_connections` step 2:
word count, folder/pattern exclusion, and embedding presence. -/
def validIndices (vault : Str) (chunks : List DbChunk) (incl : List Str)
    (excluirMocs : Bool) (minPal : Nat) : List Nat :=
  (List.range chunks.length).filter (fun i =>
    let ch := chunkAt chunks i
    ¬ wordCount ch.text < minPal ∧
    ¬ _should_exclude vault ch.source incl excluirMocs = true ∧
    ch.hasEmbedding)

/-- `np.triu_indices(n, k=1)` in row-major order. -/
def triuPairs (n : Nat) : List (Nat × Nat) :=
  (List.range n).flatMap (fun r =>
    (List.range n).filterMap (fun c => if r < c then some (r, c) else none))

/-- The candidate-processing loop of `suggest_connections` (steps 3–5):
`sim r c` stands for `similarity_matrix[r, c]` over the surviving indices. -/
def suggest_connections_core (vault : Str) (chunks : List DbChunk)
    (sim : Nat → Nat → ℚ) (threshold : ℚ) (limit : Nat) (incl : List Str)
    (excluirMocs : Bool) (minPal : Nat) : List Suggestion :=
  let valid := validIndices vault chunks incl excluirMocs minPal
  let n := valid.length
  if n < 2 then []
  else
    let cands := (triuPairs n).filter (fun rc => threshold ≤ sim rc.1 rc.2)
    let sugg := cands.filterMap (fun rc =>
      let chI := chunkAt chunks (valid.getD rc.1 0)
      let chJ := chunkAt chunks (valid.getD rc.2 0)
      if chI.source = chJ.source then none
      else
        let titleI := pyBasename chI.source
        let titleJ := pyBasename chJ.source
        let linksI := splitCh ',' chI.links
        let linksJ := splitCh ',' chJ.links
        let cleanJ := pyReplace titleJ (str ".md") []
        let cleanI := pyReplace titleI (str ".md") []
        if cleanJ ∈ linksI ∨ cleanI ∈ linksJ then none
        else some
          { note_a := titleI
            note_b := titleJ
            similarity := sim rc.1 rc.2
            folder_a := pyDirname chI.source
            folder_b := pyDirname chJ.source
            words_a := wordCount chI.text
            words_b := wordCount chJ.text
            section_a := _extract_section_header chI.text
            section_b := _extract_section_header chJ.text
            reason := str "Similitud " ++ fmt2 (sim rc.1 rc.2) })
    (sortStable (fun a b => b.similarity ≤ a.similarity) sugg).take limit

/-- The sentinel suggestion returned by the `TimeLimitExceeded` handler. -/
def timeout_sentinel : Suggestion :=
  { note_a := str "Error"
    note_b := str "Timeout"
    similarity := 0
    folder_a := []
    folder_b := []
    words_a := 0
    words_b := 0
    section_a := []
    section_b := []
    reason := str "Timeout. Reduce el umbral o filtra carpetas." }

/-- `suggest_connections` with its `time_limit` wrapper.  The SIGALRM
deadline is modelled by whether it elapsed during the computation; on
expiry the handler returns the sentinel list instead of raising. -/
def suggest_connections (timedOut : Bool) (vault : Str)
    (chunks : List DbChunk) (sim : Nat → Nat → ℚ) (threshold : ℚ)
    (limit : Nat) (incl : List Str) (excluirMocs : Bool) (minPal : Nat) :
    List Suggestion :=
  if timedOut then [timeout_sentinel]
  else suggest_connections_core vault chunks sim threshold limit incl
    excluirMocs minPal

/-- Default `timeout_seconds` of `suggest_connections`. -/
def suggest_connections_default_timeout : Nat := 180

/-! ## Hybrid retriever configuration (`semantic/retriever.py`)

The retriever construction is pure configuration; the external langchain
objects are modelled by the `Retriever` shape they build.  `db.get()` and
the cross-encoder constructor can raise; those outcomes are inputs.
-/

/-- The shape of the retriever object built by `retriever.py`. -/
inductive Retriever where
  | vector (k : Nat)
  | ensemble (bm25_k : Nat) (vector_k : Nat) (bm25_weight vector_weight : ℚ)
  | rerank (top_n : Nat) (base : Retriever)
deriving DecidableEq

/-- Default `bm25_k` of `create_hybrid_retriever`. -/
def bm25_k_default : Nat := 5

/-- Default `vector_k` of `create_hybrid_retriever`. -/
def vector_k_default : Nat := 12

/-- Default `bm25_weight` of `create_hybrid_retriever` (the float 0.4). -/
def bm25_weight_default : ℚ := 2 / 5

/-- Default `vector_weight` of `create_hybrid_retriever` (the float 0.6). -/
def vector_weight_default : ℚ := 3 / 5

/-- Default `reranker_top_n` of `create_retriever_with_reranker`. -/
def reranker_top_n_default : Nat := 6

/-- `create_hybrid_retriever`: `dbTexts` is what `db.get()["documents"]`
returns and `getRaises` whether that call (or BM25 construction) raised. -/
def create_hybrid_retriever (dbTexts : List Str) (getRaises : Bool)
    (bm25_k vector_k : Nat) (bm25_weight vector_weight : ℚ) : Retriever :=
  if getRaises then .vector vector_k
  else if dbTexts = [] then .vector vector_k
  else .ensemble bm25_k vector_k bm25_weight vector_weight

/-- `create_retriever_with_reranker`: builds the hybrid retriever with all
defaults, then optionally wraps it in the cross-encoder re-ranker; on a
re-ranker construction failure it returns the hybrid retriever unchanged. -/
def create_retriever_with_reranker (dbTexts : List Str) (getRaises : Bool)
    (use_reranker : Bool) (rerankerRaises : Bool) : Retriever :=
  let ensemble_retriever := create_hybrid_retriever dbTexts getRaises
    bm25_k_default vector_k_default bm25_weight_default vector_weight_default
  if use_reranker then
    if rerankerRaises then ensemble_retriever
    else .rerank reranker_top_n_default ensemble_retriever
  else ensemble_retriever

/-! ## Folder suggester (`SemanticService.suggest_folder`) -/

/-- A folder suggestion dictionary. -/
structure FolderSuggestion where
  folder : Str
  votes : Nat
  confidence : ℚ
  similar_notes : List Str
deriving DecidableEq

/-- Increment the tally of `folder`, preserving first-insertion order
(Python dict semantics). -/
def bumpVote (folder : Str) : List (Str × Nat) → List (Str × Nat)
  | [] => [(folder, 1)]
  | (f, v) :: t =>
      if f = folder then (f, v + 1) :: t else (f, v) :: bumpVote folder t

/-- Append a voting note name under `folder`, preserving insertion order. -/
def addVoteNote (folder note : Str) :
    List (Str × List Str) → List (Str × List Str)
  | [] => [(folder, [note])]
  | (f, ns) :: t =>
      if f = folder then (f, ns ++ [note]) :: t
      else (f, ns) :: addVoteNote folder note t

/-- Ordered association lookup (Python dict `get`). -/
def assocFind {α : Type} (k : Str) : List (Str × α) → Option α
  | [] => none
  | (f, v) :: t => if f = k then some v else assocFind k t

/-- The vote-tally loop of `suggest_folder` over `docs[:limit]`; each
element is the `source` metadata of a retrieved chunk (`[]` if absent). -/
def tallyFolders (sources : List Str) (limit : Nat) :
    List (Str × Nat) × List (Str × List Str) :=
  (sources.take limit).foldl
    (fun acc source =>
      if source ≠ [] then
        let folder := pyDirname source
        let note_name := pyBasename source
        if folder ≠ [] ∧ folder ≠ str "." then
          (bumpVote folder acc.1,
           addVoteNote folder (pyReplace note_name (str ".md") []) acc.2)
        else acc
      else acc)
    ([], [])

/-- CPython `round(q, 2)` idealized as decimal rounding half-to-even. -/
def pyRound2 (q : ℚ) : ℚ := (roundHalfEven (100 * q) : ℚ) / 100

/-- `total_votes` of `suggest_folder`. -/
def totalVotesOf (sources : List Str) (limit : Nat) : Nat :=
  (((tallyFolders sources limit).1).map (·.2)).sum

/-- `SemanticService.suggest_folder`, given the `source` metadata of the
chunks the retriever returned. -/
def suggest_folder (sources : List Str) (limit top_k : Nat) :
    List FolderSuggestion :=
  let t := tallyFolders sources limit
  let folders := t.1
  if folders = [] then []
  else
    let total_votes : Nat := totalVotesOf sources limit
    let sorted_folders :=
      (sortStable (fun a b => b.2 ≤ a.2) folders).take top_k
    sorted_folders.map (fun fv =>
      { folder := fv.1
        votes := fv.2
        confidence :=
          if 0 < total_votes then pyRound2 ((fv.2 : ℚ) / total_votes) else 0
        similar_notes := ((assocFind fv.1 t.2).getD []).take 3 })

/-! ## Indexer control flow (`semantic/indexer.py`, `index_vault`)

`load_or_create_db` is modelled as a function over the persisted store
state; loading, splitting and embedding/store construction are fallible
external steps and enter as `Except`-valued inputs.  The store is the list
of `(source, text)` chunks it holds.  `FileMetadataTracker` (whose module
is not part of the core sources) is abstracted by the values its three
calls return, which is all `load_or_create_db` consumes.
-/

/-- A stored or loaded document/chunk: source path and text. -/
abbrev IdxDoc := Str × Str

/-- The statistics dictionary of `load_or_create_db`. -/
structure IndexStats where
  docs_processed : Nat
  docs_new : Nat
  docs_modified : Nat
  docs_deleted : Nat
  is_incremental : Bool
deriving DecidableEq

/-- All-zero statistics. -/
def statsZero : IndexStats := ⟨0, 0, 0, 0, false⟩

/-- The on-disk state owned by the indexer: the persisted vector store at
`db_path`, if present. -/
structure IdxWorld where
  persisted : Option (List IdxDoc)
deriving DecidableEq

/-- `load_or_create_db`.  Returns the raised-or-returned outcome together
with the resulting on-disk state.  `shutil.rmtree(db_path)` in the full
rebuild is the state update to `persisted := none`. -/
def load_or_create_db (world : IdxWorld) (force_rebuild : Bool)
    (should_rebuild : Bool) (newFiles modifiedFiles deletedFiles : List Str)
    (loadAll : Except Unit (List IdxDoc)) (loadPaths : List IdxDoc)
    (splitDocs : List IdxDoc → Except Unit (List IdxDoc))
    (fromDocuments : List IdxDoc → Except Unit (List IdxDoc))
    (addDocuments : List IdxDoc → Except Unit (List IdxDoc)) :
    Except Unit (Option (List IdxDoc) × IndexStats) × IdxWorld :=
  let dbExists := world.persisted.isSome
  if dbExists ∧ ¬ force_rebuild ∧ ¬ should_rebuild then
    if newFiles = [] ∧ modifiedFiles = [] ∧ deletedFiles = [] then
      (.ok (some (world.persisted.getD []), statsZero), world)
    else
      let stats : IndexStats :=
        { docs_processed := newFiles.length + modifiedFiles.length
          docs_new := newFiles.length
          docs_modified := modifiedFiles.length
          docs_deleted := deletedFiles.length
          is_incremental := true }
      let afterDelete : List IdxDoc :=
        (world.persisted.getD []).filter
          (fun dc => ¬ dc.1 ∈ deletedFiles ++ modifiedFiles)
      if loadPaths = [] then
        (.ok (some afterDelete, stats), ⟨some afterDelete⟩)
      else
        match splitDocs loadPaths with
        | .error e => (.error e, ⟨some afterDelete⟩)
        | .ok texts =>
            match addDocuments texts with
            | .error e => (.error e, ⟨some afterDelete⟩)
            | .ok added =>
                (.ok (some (afterDelete ++ added), stats),
                 ⟨some (afterDelete ++ added)⟩)
  else
    match loadAll with
    | .error e => (.error e, world)
    | .ok documents =>
        if documents = [] then (.ok (none, statsZero), world)
        else
          let stats : IndexStats :=
            { statsZero with
                docs_processed := documents.length, is_incremental := false }
          match splitDocs documents with
          | .error e => (.error e, world)
          | .ok texts =>
              let world1 : IdxWorld := if dbExists then ⟨none⟩ else world
              match fromDocuments texts with
              | .error e => (.error e, world1)
              | .ok chunks => (.ok (some chunks, stats), ⟨some chunks⟩)

/-- `SemanticService.index_vault`: runs `load_or_create_db` and adds the
`success` flag (`db is not None`); a raise propagates unhandled. -/
def index_vault (world : IdxWorld) (force : Bool) (should_rebuild : Bool)
    (newFiles modifiedFiles deletedFiles : List Str)
    (loadAll : Except Unit (List IdxDoc)) (loadPaths : List IdxDoc)
    (splitDocs : List IdxDoc → Except Unit (List IdxDoc))
    (fromDocuments : List IdxDoc → Except Unit (List IdxDoc))
    (addDocuments : List IdxDoc → Except Unit (List IdxDoc)) :
    Except Unit (Option (List IdxDoc) × IndexStats × Bool) × IdxWorld :=
  match load_or_create_db world force should_rebuild newFiles modifiedFiles
    deletedFiles loadAll loadPaths splitDocs fromDocuments addDocuments with
  | (.error e, w) => (.error e, w)
  | (.ok (db, stats), w) => (.ok (db, stats, db.isSome), w)

/-! ## Front-matter split (`creation_logic._extract_frontmatter_from_content`)

The anchored pattern `^---\s*\n(.*?)\n---\s*\n?` (DOTALL) is implemented
with its exact backtracking semantics: the greedy `\s*\n` of the opening
line tries the longest whitespace prefix ending in a newline first, the
lazy group stops at the first subsequent `\n---`, and the closing `\s*\n?`
consumes the maximal whitespace run.  `yaml.safe_load` is an external
dependency and enters as a parameter classifying its outcome.
-/

/-- Outcome of `yaml.safe_load(...)` as consumed by the code:
`raises` — a `yaml.YAMLError` was raised; `falsy` — a falsy value (`None`,
empty list or string) that `or {}` turns into the empty dict; `nonMapping`
— a truthy non-dict value; `mapping m` — a dict. -/
inductive YamlRes (γ : Type) where
  | raises
  | falsy
  | nonMapping
  | mapping (m : γ)

/-- Try the opening `---\s*\n` with `\s*` of length `j` for `j` from the
argument minus one down to zero (greedy preference), continuing with the
lazy group and `\n---\s*\n?`; returns the captured group and the match end
offset into `r` (the text after the leading `---`). -/
def fmTryOpen (r : Str) : Nat → Option (Str × Nat)
  | 0 => none
  | j + 1 =>
      if r.getD j ' ' = '\n' then
        match findSub (str "\n---") (r.drop (j + 1)) with
        | some i =>
            some ((r.drop (j + 1)).take i,
              j + 1 + i + 4 + wsRun (r.drop (j + 1 + i + 4)))
        | none => fmTryOpen r j
      else fmTryOpen r j

/-- `re.match` of the front-matter pattern: captured YAML text and match
end offset into the whole content. -/
def fmMatch (cs : Str) : Option (Str × Nat) :=
  if (str "---").isPrefixOf cs then
    let r := cs.drop 3
    match fmTryOpen r (wsRun r + 1) with
    | some (g, e) => some (g, 3 + e)
    | none => none
  else none

/-- `_extract_frontmatter_from_content`, parametric in the dict type `γ`
and the `yaml.safe_load` outcome. -/
def _extract_frontmatter_from_content {γ : Type} (emptyD : γ)
    (parse : Str → YamlRes γ) (contenido : Str) : γ × Str :=
  match fmMatch contenido with
  | none => (emptyD, contenido)
  | some (g, e) =>
      match parse g with
      | .raises => (emptyD, contenido)
      | .falsy => (emptyD, pyLstrip (contenido.drop e))
      | .nonMapping => (emptyD, contenido)
      | .mapping m => (m, pyLstrip (contenido.drop e))

/-! ## Date placeholders (`creation_logic._process_date_placeholders`)

The current time is a `DateParts` value; `strftime` is modelled for the
C locale (English month/day names, as produced before the Spanish
substitution tables are applied).  Unknown directives pass through
literally (glibc behaviour); a trailing `%` raises `ValueError`, which
`convert_format` catches by returning the original format string.
-/

/-- The fields of `datetime.now()` consumed by the code.  `wd` is the
weekday with `0 = Monday`. -/
structure DateParts where
  year : Nat
  month : Nat
  day : Nat
  hour : Nat
  minute : Nat
  second : Nat
  wd : Nat
deriving DecidableEq

/-- English month names (`%B`, C locale). -/
def monthFullEn : List Str :=
  [str "January", str "February", str "March", str "April", str "May",
   str "June", str "July", str "August", str "September", str "October",
   str "November", str "December"]

/-- Abbreviated English month names (`%b`). -/
def monthAbbrEn : List Str :=
  [str "Jan", str "Feb", str "Mar", str "Apr", str "May", str "Jun",
   str "Jul", str "Aug", str "Sep", str "Oct", str "Nov", str "Dec"]

/-- English weekday names (`%A`), starting from Monday. -/
def dayFullEn : List Str :=
  [str "Monday", str "Tuesday", str "Wednesday", str "Thursday",
   str "Friday", str "Saturday", str "Sunday"]

/-- Abbreviated English weekday names (`%a`). -/
def dayAbbrEn : List Str :=
  [str "Mon", str "Tue", str "Wed", str "Thu", str "Fri", str "Sat",
   str "Sun"]

/-- `strftime` over the directives reachable from `format_map`; `none`
models a `ValueError`. -/
def strftimeGo (d : DateParts) : Str → Option Str
  | [] => some []
  | '%' :: rest =>
      match rest with
      | [] => none
      | '-' :: rest2 =>
          match rest2 with
          | [] => none
          | c2 :: rest3 =>
              match c2 with
              | 'm' => (natStr d.month ++ ·) <$> strftimeGo d rest3
              | 'd' => (natStr d.day ++ ·) <$> strftimeGo d rest3
              | _ => (fun t => '%' :: '-' :: c2 :: t) <$> strftimeGo d rest3
      | c :: rest2 =>
          let expand : Option Str :=
            match c with
            | 'Y' => some (pad4 d.year)
            | 'y' => some (pad2 (d.year % 100))
            | 'B' => some (monthFullEn.getD (d.month - 1) [])
            | 'b' => some (monthAbbrEn.getD (d.month - 1) [])
            | 'm' => some (pad2 d.month)
            | 'A' => some (dayFullEn.getD d.wd [])
            | 'a' => some (dayAbbrEn.getD d.wd [])
            | 'd' => some (pad2 d.day)
            | 'H' => some (pad2 d.hour)
            | 'M' => some (pad2 d.minute)
            | 'S' => some (pad2 d.second)
            | '%' => some ['%']
            | _ => none
          match expand with
          | some e => (e ++ ·) <$> strftimeGo d rest2
          | none => (fun t => '%' :: c :: t) <$> strftimeGo d rest2
  | c :: rest => (c :: ·) <$> strftimeGo d rest

/-- The sequential `format_map` replacements of `convert_format`. -/
def momentToStrftime (s : Str) : Str :=
  let s := pyReplace s (str "YYYY") (str "%Y")
  let s := pyReplace s (str "YY") (str "%y")
  let s := pyReplace s (str "MMMM") (str "%B")
  let s := pyReplace s (str "MMM") (str "%b")
  let s := pyReplace s (str "MM") (str "%m")
  let s := pyReplace s (str "M") (str "%-m")
  let s := pyReplace s (str "dddd") (str "%A")
  let s := pyReplace s (str "ddd") (str "%a")
  let s := pyReplace s (str "DD") (str "%d")
  let s := pyReplace s (str "D") (str "%-d")
  let s := pyReplace s (str "HH") (str "%H")
  let s := pyReplace s (str "mm") (str "%M")
  pyReplace s (str "ss") (str "%S")

/-- The `meses_es` table, in insertion order. -/
def mesesEsPairs : List (Str × Str) :=
  [(str "January", str "Enero"), (str "February", str "Febrero"),
   (str "March", str "Marzo"), (str "April", str "Abril"),
   (str "May", str "Mayo"), (str "June", str "Junio"),
   (str "July", str "Julio"), (str "August", str "Agosto"),
   (str "September", str "Septiembre"), (str "October", str "Octubre"),
   (str "November", str "Noviembre"), (str "December", str "Diciembre"),
   (str "Jan", str "Ene"), (str "Feb", str "Feb"), (str "Mar", str "Mar"),
   (str "Apr", str "Abr"), (str "Jun", str "Jun"), (str "Jul", str "Jul"),
   (str "Aug", str "Ago"), (str "Sep", str "Sep"), (str "Oct", str "Oct"),
   (str "Nov", str "Nov"), (str "Dec", str "Dic")]

/-- The `dias_es` table, in insertion order. -/
def diasEsPairs : List (Str × Str) :=
  [(str "Monday", str "Lunes"), (str "Tuesday", str "Martes"),
   (str "Wednesday", str "Miércoles"), (str "Thursday", str "Jueves"),
   (str "Friday", str "Viernes"), (str "Saturday", str "Sábado"),
   (str "Sunday", str "Domingo"), (str "Mon", str "Lun"),
   (str "Tue", str "Mar"), (str "Wed", str "Mié"), (str "Thu", str "Jue"),
   (str "Fri", str "Vie"), (str "Sat", str "Sáb"), (str "Sun", str "Dom")]

/-- Apply a table of sequential `str.replace` substitutions. -/
def applyPairs (ps : List (Str × Str)) (s : Str) : Str :=
  ps.foldl (fun acc p => pyReplace acc p.1 p.2) s

/-- `convert_format` of `_process_date_placeholders`. -/
def convert_format (d : DateParts) (moment : Str) : Str :=
  match strftimeGo d (momentToStrftime moment) with
  | some formatted => applyPairs diasEsPairs (applyPairs mesesEsPairs formatted)
  | none => moment

/-- `date_obj.strftime("%Y-%m-%d")`. -/
def simple_date (d : DateParts) : Str :=
  pad4 d.year ++ '-' :: (pad2 d.month ++ '-' :: pad2 d.day)

/-- Scanner for the substitution of `\{\{(?:date|fecha):([^}]+)\}\}`
(all occurrences, leftmost first, continuing after each match).  The `Nat`
argument counts characters of a just-matched occurrence still to skip. -/
def subDateFmtGo (d : DateParts) : Nat → Str → Str
  | _, [] => []
  | n + 1, _ :: rest => subDateFmtGo d n rest
  | 0, c :: rest =>
      let s := c :: rest
      let pre : Option Nat :=
        if (str "\x7b\x7bdate:").isPrefixOf s then some 7
        else if (str "\x7b\x7bfecha:").isPrefixOf s then some 8
        else none
      match pre with
      | some pl =>
          let afterIdent := s.drop pl
          let g := afterIdent.takeWhile (· ≠ '\x7d')
          if g ≠ [] ∧ (str "\x7d\x7d").isPrefixOf (afterIdent.drop g.length) then
            convert_format d g ++ subDateFmtGo d (pl + g.length + 2 - 1) rest
          else c :: subDateFmtGo d 0 rest
      | none => c :: subDateFmtGo d 0 rest

/-- The substitution of `\{\{(?:date|fecha):([^}]+)\}\}`. -/
def subDateFmt (d : DateParts) (s : Str) : Str := subDateFmtGo d 0 s

/-- Scanner for the substitution of `\{\{(?:date|fecha)\}\}`. -/
def subDateSimpleGo (simple : Str) : Nat → Str → Str
  | _, [] => []
  | n + 1, _ :: rest => subDateSimpleGo simple n rest
  | 0, c :: rest =>
      let s := c :: rest
      if (str "\x7b\x7bdate\x7d\x7d").isPrefixOf s then
        simple ++ subDateSimpleGo simple 7 rest
      else if (str "\x7b\x7bfecha\x7d\x7d").isPrefixOf s then
        simple ++ subDateSimpleGo simple 8 rest
      else c :: subDateSimpleGo simple 0 rest

/-- The substitution of `\{\{(?:date|fecha)\}\}` by the simple date. -/
def subDateSimple (simple : Str) (s : Str) : Str := subDateSimpleGo simple 0 s

/-- The substitution of `(key\s*["\']?)YYYY-MM-DD(["\']?)` for
`key ∈ {created:, updated:}` (unanchored, all occurrences).  The greedy
`\s*` admits only its maximal run here, since shorter runs leave a
whitespace character where the quote or the literal `Y` is required. -/
def subKeyYMDGo (key simple : Str) : Nat → Str → Str
  | _, [] => []
  | n + 1, _ :: rest => subKeyYMDGo key simple n rest
  | 0, c :: rest =>
      let s := c :: rest
      if key.isPrefixOf s then
        let afterKey := s.drop key.length
        let w := wsRun afterKey
        let afterWs := afterKey.drop w
        let q1 : Nat := match afterWs with
          | c2 :: _ => if isQuoteCh c2 then 1 else 0
          | [] => 0
        let afterQ1 := afterWs.drop q1
        if (str "YYYY-MM-DD").isPrefixOf afterQ1 then
          let afterLit := afterQ1.drop 10
          let q2 : Nat := match afterLit with
            | c3 :: _ => if isQuoteCh c3 then 1 else 0
            | [] => 0
          s.take (key.length + w + q1) ++ simple ++ afterLit.take q2 ++
            subKeyYMDGo key simple (key.length + w + q1 + 10 + q2 - 1) rest
        else c :: subKeyYMDGo key simple 0 rest
      else c :: subKeyYMDGo key simple 0 rest

/-- The substitution of `(key\s*["\']?)YYYY-MM-DD(["\']?)`. -/
def subKeyYMD (key simple : Str) (s : Str) : Str := subKeyYMDGo key simple 0 s

/-- `_process_date_placeholders`. -/
def _process_date_placeholders (d : DateParts) (content : Str) : Str :=
  let c1 := subDateFmt d content
  let c2 := subDateSimple (simple_date d) c1
  let c3 := subKeyYMD (str "created:") (simple_date d) c2
  subKeyYMD (str "updated:") (simple_date d) c3

/-! ## The `updated:` touch of `edit_note` (`creation_logic.edit_note`)

The two substitutions
`re.sub(r'^(updated:\s*["\']?)[^"\'\n]+(["\']?)$', ..., count=1, MULTILINE)`
and `re.sub(r'^(created:\s*.+)$', ..., count=1, MULTILINE)` are
implemented as leftmost-match scanners with greedy backtracking: `\s*`
tries its longest run first (possibly across newlines), the optional
quote is tried before its absence, and the value run is maximal.
-/

/-- The optional closing quote followed by `$`: greedy, quote first. -/
def tryQ2 : Str → Option Nat
  | [] => some 0
  | c :: rest =>
      if isQuoteCh c then
        if atEOL rest then some 1
        else if atEOL (c :: rest) then some 0 else none
      else if atEOL (c :: rest) then some 0 else none

/-- Greedy `[^"'\n]+` (longest first) followed by `["\']?$`. -/
def goVal : Nat → Str → Option (Nat × Nat)
  | 0, _ => none
  | v + 1, cs =>
      match tryQ2 (cs.drop (v + 1)) with
      | some q2 => some (v + 1, q2)
      | none => goVal v cs

/-- Attempt `[^"'\n]+["\']?$` at the current position. -/
def tryVal (cs : Str) : Option (Nat × Nat) := goVal (valRun cs) cs

/-- Optional opening quote (greedy) before the value. -/
def tryQ1Val : Str → Option (Nat × Nat × Nat)
  | [] => none
  | c :: rest =>
      if isQuoteCh c then (tryVal rest).map (fun p => (1, p.1, p.2))
      else (tryVal (c :: rest)).map (fun p => (0, p.1, p.2))

/-- Greedy `\s*` (longest first, with backtracking) before quote and
value; returns `(ws, q1, val, q2)` lengths. -/
def goWs : Nat → Str → Option (Nat × Nat × Nat × Nat)
  | 0, cs => (tryQ1Val cs).map (fun t => (0, t.1, t.2.1, t.2.2))
  | n + 1, cs =>
      match tryQ1Val (cs.drop (n + 1)) with
      | some t => some (n + 1, t.1, t.2.1, t.2.2)
      | none => goWs n cs

/-- Attempt `\s*["\']?[^"'\n]+["\']?$` after the literal `updated:`. -/
def updTail (cs : Str) : Option (Nat × Nat × Nat × Nat) := goWs (wsRun cs) cs

/-- Leftmost-match scanner of the `updated:` substitution (`count=1`).
The flag records whether the position is a line start. -/
def subUpdatedGo (ahora : Str) : Str → Bool → Str
  | [], _ => []
  | c :: rest, atStart =>
      match
        (if atStart ∧ (str "updated:").isPrefixOf (c :: rest) then
          match updTail ((c :: rest).drop 8) with
          | some (w, q1, v, _) =>
              some ((c :: rest).take (8 + w + q1) ++ ahora ++
                (c :: rest).drop (8 + w + q1 + v))
          | none => none
        else none) with
      | some out => out
      | none => c :: subUpdatedGo ahora rest (c = '\n')

/-- The `updated:`-value substitution of `edit_note`. -/
def subUpdatedValue (ahora cs : Str) : Str := subUpdatedGo ahora cs true

/-- Greedy `\s*` before `.+$` of the `created:` pattern. -/
def goWsCr : Nat → Str → Option (Nat × Nat)
  | 0, cs => (tryDotEOL cs).map (fun v => (0, v))
  | n + 1, cs =>
      match tryDotEOL (cs.drop (n + 1)) with
      | some v => some (n + 1, v)
      | none => goWsCr n cs

/-- Attempt `\s*.+$` after the literal `created:`. -/
def crTail (cs : Str) : Option (Nat × Nat) := goWsCr (wsRun cs) cs

/-- Leftmost-match scanner of the `created:` insertion (`count=1`). -/
def subCreatedGo (ahora : Str) : Str → Bool → Str
  | [], _ => []
  | c :: rest, atStart =>
      match
        (if atStart ∧ (str "created:").isPrefixOf (c :: rest) then
          match crTail ((c :: rest).drop 8) with
          | some (w, v) =>
              some ((c :: rest).take (8 + w + v) ++
                '\n' :: (str "updated: ") ++ ahora ++
                (c :: rest).drop (8 + w + v))
          | none => none
        else none) with
      | some out => out
      | none => c :: subCreatedGo ahora rest (c = '\n')

/-- The `updated:`-insertion after `created:` of `edit_note`. -/
def subCreatedInsert (ahora cs : Str) : Str := subCreatedGo ahora cs true

/-- `re.search(r"^p", text, re.MULTILINE)` for a literal `p`. -/
def hasLineStartGo (p : Str) : Str → Bool → Bool
  | [], atStart => atStart && p.isPrefixOf []
  | c :: rest, atStart =>
      (atStart && p.isPrefixOf (c :: rest)) || hasLineStartGo p rest (c = '\n')

/-- Whether some line of `cs` starts with the literal `p`. -/
def hasLineStart (p cs : Str) : Bool := hasLineStartGo p cs true

/-- The `updated:`-touch block of `edit_note` (lines 310–331 of
`creation_logic.py`). -/
def touch_updated (ahora cs : Str) : Str :=
  if (str "---").isPrefixOf cs then
    if hasLineStart (str "updated:") cs then subUpdatedValue ahora cs
    else if hasLineStart (str "created:") cs then subCreatedInsert ahora cs
    else
      pyReplaceFirst cs (str "\n---\n")
        ('\n' :: (str "updated: ") ++ ahora ++ str "\n---\n")
  else cs

/-- The full content transformation of `edit_note`: the date-placeholder
pass followed by the `updated:` touch with the current date. -/
def edit_note_content (d : DateParts) (content : Str) : Str :=
  touch_updated (simple_date d) (_process_date_placeholders d content)

/-- The property the claim asserts of the edited document: a line whose
`updated:` value (after optional whitespace and quote) is exactly the
current date. -/
def isUpdatedLineFor (ahora l : Str) : Bool :=
  (str "updated:").isPrefixOf l &&
    (let r := (l.drop 8).dropWhile isPySpace
     let r2 := match r with
       | c :: t => if isQuoteCh c then t else r
       | [] => r
     ahora.isPrefixOf r2 &&
       (match r2.drop ahora.length with
        | [] => true
        | [c] => isQuoteCh c
        | _ => false))

/-! ## Path policy and write path (`utils/security.py`, write tools)

The filesystem is a finite map from paths to file contents plus the set of
directories; `pathlib` operations become pure state updates.  Path
canonicalization (`Path.resolve`) and glob matching live behind the
`SecEnv` functions, which return exactly what `validate_path_within_vault`
and `is_path_forbidden` return; `check_path_access` composes them as in
`security.py`.  An operation's unhandled Python exception is the
`Except.error` outcome.
-/

/-- The `Result` dataclass of `result.py`. -/
structure PyResult where
  success : Bool
  data : Option Str
  error : Option Str
deriving DecidableEq

/-- `Result.ok`. -/
def PyResult.ok (d : Str) : PyResult := ⟨true, some d, none⟩

/-- `Result.fail`. -/
def PyResult.fail (e : Str) : PyResult := ⟨false, none, some e⟩

/-- Update-or-append on an ordered association list (Python dict update
semantics: existing keys keep their position). -/
def assocSet {α : Type} (k : Str) (v : α) : List (Str × α) → List (Str × α)
  | [] => [(k, v)]
  | (f, w) :: t => if f = k then (f, v) :: t else (f, w) :: assocSet k v t

/-- Filesystem state: file contents by path, plus registered directories
(`mkdir` targets; ancestors are not tracked individually). -/
structure FS where
  files : List (Str × Str)
  dirs : List Str
deriving DecidableEq

/-- Whether a file exists at `p`. -/
def fsFileExists (fs : FS) (p : Str) : Bool := (assocFind p fs.files).isSome

/-- Whether `p` names an existing file or directory. -/
def fsExists (fs : FS) (p : Str) : Bool := fsFileExists fs p || p ∈ fs.dirs

/-- Read a file. -/
def fsRead (fs : FS) (p : Str) : Option Str := assocFind p fs.files

/-- Write (create or overwrite) a file. -/
def fsWrite (fs : FS) (p c : Str) : FS :=
  { fs with files := assocSet p c fs.files }

/-- `Path.unlink`. -/
def fsUnlink (fs : FS) (p : Str) : FS :=
  { fs with files := fs.files.filter (fun e => ¬ e.1 = p) }

/-- `Path.rename`. -/
def fsRename (fs : FS) (src dst : Str) : FS :=
  match fsRead fs src with
  | some c => fsWrite (fsUnlink fs src) dst c
  | none => fs

/-- `Path.mkdir(parents=True, exist_ok=True)`, tracked by its target. -/
def fsMkdirParents (fs : FS) (d : Str) : FS :=
  if d ∈ fs.dirs then fs else { fs with dirs := fs.dirs ++ [d] }

/-- The security environment: whether the vault is configured, its root,
and the outcomes of the two primitive checks of `security.py`
(path resolution and glob matching abstracted). -/
structure SecEnv where
  vaultConfigured : Bool
  vault : Str
  withinVault : Str → Bool × Str
  forbiddenCheck : Str → Bool × Str
  restricted : Str → List Str → Bool

/-- `check_path_access`: vault-confinement first, then the forbidden-glob
check, fail-closed, with the messages of `security.py`. -/
def check_path_access (env : SecEnv) (p : Str) (operation : Str) :
    Bool × Str :=
  let v := env.withinVault p
  if ¬ v.1 then (false, str "⛔ Error de seguridad: " ++ v.2)
  else
    let f := env.forbiddenCheck p
    if f.1 then
      (false, str "⛔ ACCESO DENEGADO: No se permite " ++ operation ++
        str " rutas protegidas")
    else (true, [])

/-- `Path.relative_to(vault)` for paths under the vault. -/
def pyRelativeTo (vault p : Str) : Str :=
  if (vault ++ ['/']).isPrefixOf p then p.drop (vault.length + 1) else p

/-- POSIX path join `base / rel` (with `base / "" = base`). -/
def pathJoin (base rel : Str) : Str :=
  if rel = [] then base else base ++ '/' :: rel

/-- `sanitize_filename` from `utils/vault.py`. -/
def sanitize_filename (filename : Str) : Str :=
  let m := filename.map (fun c => if c = '/' ∨ c = '\\' then '-' else c)
  let m := m.map (fun c =>
    if c = '<' ∨ c = '>' ∨ c = ':' ∨ c = '"' ∨ c = '|' ∨ c = '?' ∨ c = '*'
    then '-' else c)
  if ¬ (str ".md").isSuffixOf m then m ++ str ".md" else m

/-- The result of one write-path operation: the returned `Result` (or an
unhandled exception) together with the final filesystem. -/
abbrev OpOut := Except Unit PyResult × FS

/-- `edit_note` from `creation_logic.py`; `find` is the outcome of
`find_note_by_name`. -/
def edit_note (env : SecEnv) (find : Str → Option Str) (fs : FS)
    (nombre_archivo nuevo_contenido : Str) (d : DateParts) : OpOut :=
  if ¬ env.vaultConfigured then
    (.ok (.fail (str "La ruta del vault no esta configurada.")), fs)
  else
    match find nombre_archivo with
    | none =>
        (.ok (.fail (str "No se encontro la nota '" ++ nombre_archivo ++
          str "'")), fs)
    | some nota_path =>
        let chk := check_path_access env nota_path (str "editar")
        if ¬ chk.1 then (.ok (.fail chk.2), fs)
        else
          let contenido_procesado := edit_note_content d nuevo_contenido
          (.ok (.ok (str "Nota editada correctamente: " ++
            pyRelativeTo env.vault nota_path)),
           fsWrite fs nota_path contenido_procesado)

/-- `append_to_note` from `creation_logic.py`. -/
def append_to_note (env : SecEnv) (find : Str → Option Str) (fs : FS)
    (nombre_archivo contenido : Str) (al_final : Bool) : OpOut :=
  if ¬ env.vaultConfigured then
    (.ok (.fail (str "La ruta del vault no esta configurada.")), fs)
  else
    match find nombre_archivo with
    | none =>
        (.ok (.fail (str "No se encontro la nota '" ++ nombre_archivo ++
          str "'")), fs)
    | some nota_path =>
        let chk := check_path_access env nota_path (str "modificar")
        if ¬ chk.1 then (.ok (.fail chk.2), fs)
        else
          match fsRead fs nota_path with
          | none => (.error (), fs)
          | some contenido_actual =>
              let nuevo_contenido :=
                if al_final then
                  let sep :=
                    if ¬ (str "\n\n").isSuffixOf contenido_actual then
                      str "\n\n"
                    else []
                  contenido_actual ++ sep ++ contenido
                else contenido ++ str "\n\n" ++ contenido_actual
              let posicion := if al_final then str "final" else str "inicio"
              (.ok (.ok (str "Contenido agregado al " ++ posicion ++
                str " de " ++ pyRelativeTo env.vault nota_path)),
               fsWrite fs nota_path nuevo_contenido)

/-- `delete_note` from `creation_logic.py`. -/
def delete_note (env : SecEnv) (find : Str → Option Str) (fs : FS)
    (nombre_archivo : Str) (confirmar : Bool) : OpOut :=
  if ¬ env.vaultConfigured then
    (.ok (.fail (str "La ruta del vault no esta configurada.")), fs)
  else if ¬ confirmar then
    (.ok (.fail (str "Para eliminar una nota, debes confirmar con confirmar=True")), fs)
  else
    match find nombre_archivo with
    | none =>
        (.ok (.fail (str "No se encontro la nota '" ++ nombre_archivo ++
          str "'")), fs)
    | some nota_path =>
        let chk := check_path_access env nota_path (str "eliminar")
        if ¬ chk.1 then (.ok (.fail chk.2), fs)
        else
          (.ok (.ok (str "Nota eliminada: " ++
            pyRelativeTo env.vault nota_path)),
           fsUnlink fs nota_path)

/-- Case-insensitive literal prefix (ASCII), for `re.escape(...)` with
`re.IGNORECASE`. -/
def ciPrefix (target s : Str) : Bool :=
  (pyLower target).isPrefixOf (pyLower s)

/-- Largest `j ≤ R` whose suffix is at end-of-line: the greedy trailing
`\s*$` of the section-heading pattern. -/
def lastEOLWithin (s : Str) : Nat → Option Nat
  | 0 => if atEOL s then some 0 else none
  | j + 1 => if atEOL (s.drop (j + 1)) then some (j + 1) else lastEOLWithin s j

/-- Attempt `\s+TARGET\s*$` (case-insensitive literal target) after the
heading hashes; greedy `\s+` with backtracking.  Returns the number of
characters consumed. -/
def sectTailGo (target : Str) (cs : Str) : Nat → Option Nat
  | 0 => none
  | n + 1 =>
      if ciPrefix target (cs.drop (n + 1)) then
        let afterT := cs.drop (n + 1 + target.length)
        match lastEOLWithin afterT (wsRun afterT) with
        | some j => some (n + 1 + target.length + j)
        | none => sectTailGo target cs n
      else sectTailGo target cs n

/-- Attempt the tail of `^(#{1,6})\s+TARGET\s*$` at the position after the
hashes. -/
def sectTail (target cs : Str) : Option Nat := sectTailGo target cs (wsRun cs)

/-- Leftmost match of the section-heading pattern: returns the heading
level and `match.end()` (an absolute offset). -/
def findSectionGo (target : Str) : Str → Bool → Nat → Option (Nat × Nat)
  | [], _, _ => none
  | c :: rest, atStart, pos =>
      match
        (if atStart then
          let s := c :: rest
          let hr := (s.takeWhile (· = '#')).length
          if 1 ≤ hr ∧ hr ≤ 6 then
            match sectTail target (s.drop hr) with
            | some consumed => some (hr, pos + hr + consumed)
            | none => none
          else none
        else none) with
      | some r => some r
      | none => findSectionGo target rest (c = '\n') (pos + 1)

/-- Whether `^#{1,level}\s+\S` matches at the start of `s`. -/
def nextHeadingHere (level : Nat) (s : Str) : Bool :=
  let hr := (s.takeWhile (· = '#')).length
  1 ≤ hr && hr ≤ level &&
    (match s.drop hr with
     | c2 :: t => isPySpace c2 && (c2 :: t).any (fun x => !isPySpace x)
     | [] => false)

/-- Leftmost match of `^#{1,level}\s+\S` (multiline): the next heading of
equal or shallower depth; returns `match.start()`. -/
def findNextHeadingGo (level : Nat) : Str → Bool → Nat → Option Nat
  | [], _, _ => none
  | c :: rest, atStart, pos =>
      if atStart ∧ nextHeadingHere level (c :: rest) then some pos
      else findNextHeadingGo level rest (c = '\n') (pos + 1)

/-- `append_to_section` from `creation_logic.py`. -/
def append_to_section (env : SecEnv) (find : Str → Option Str) (fs : FS)
    (nombre_archivo seccion contenido : Str) (crear_si_no_existe : Bool) :
    OpOut :=
  if ¬ env.vaultConfigured then
    (.ok (.fail (str "La ruta del vault no esta configurada.")), fs)
  else
    match find nombre_archivo with
    | none =>
        (.ok (.fail (str "No se encontro la nota '" ++ nombre_archivo ++
          str "'")), fs)
    | some nota_path =>
        let chk := check_path_access env nota_path (str "modificar")
        if ¬ chk.1 then (.ok (.fail chk.2), fs)
        else
          match fsRead fs nota_path with
          | none => (.error (), fs)
          | some contenido_actual =>
              let seccion_limpia := pyStrip (seccion.dropWhile (· = '#'))
              match findSectionGo seccion_limpia contenido_actual true 0 with
              | some (section_level, section_start) =>
                  let remaining := contenido_actual.drop section_start
                  let nuevo_contenido :=
                    match findNextHeadingGo section_level remaining true 0 with
                    | some rel =>
                        let insert_pos := section_start + rel
                        pyRstrip (contenido_actual.take insert_pos) ++
                          str "\n\n" ++ contenido ++ str "\n\n" ++
                          pyLstrip (contenido_actual.drop insert_pos)
                    | none =>
                        pyRstrip contenido_actual ++ str "\n\n" ++
                          contenido ++ str "\n"
                  (.ok (.ok (str "Contenido añadido a sección '" ++
                    seccion_limpia ++ str "' de " ++
                    pyRelativeTo env.vault nota_path)),
                   fsWrite fs nota_path nuevo_contenido)
              | none =>
                  if crear_si_no_existe then
                    let nuevo_contenido :=
                      pyRstrip contenido_actual ++ str "\n\n## " ++
                        seccion_limpia ++ str "\n\n" ++ contenido ++ str "\n"
                    (.ok (.ok (str "Contenido añadido a sección '" ++
                      seccion_limpia ++ str "' de " ++
                      pyRelativeTo env.vault nota_path)),
                     fsWrite fs nota_path nuevo_contenido)
                  else
                    (.ok (.fail (str "No se encontró la sección '" ++
                      seccion ++ str "' en la nota. " ++
                      str "Usa crear_si_no_existe=True para crearla.")), fs)

/-! ### `create_note` (`creation_logic.py`) -/

/-- A front-matter value as handled by `_build_frontmatter`: a string
scalar or a list of strings (the shapes the claims exercise). -/
inductive FmVal where
  | s (v : Str)
  | l (vs : List Str)
deriving DecidableEq

/-- The ordered front-matter dictionary. -/
abbrev FmDict := List (Str × FmVal)

/-- Comma-split, strip, and drop empties (the tag normalizations). -/
def splitTags (s : Str) : List Str :=
  ((splitCh ',' s).map pyStrip).filter (fun t => t ≠ [])

/-- Block-style YAML emission of the dictionaries `_build_frontmatter`
produces (string scalars and string lists; `yaml.dump` quoting subtleties
are outside the claims). -/
def yamlDumpLine (kv : Str × FmVal) : Str :=
  match kv.2 with
  | .s v => kv.1 ++ str ": " ++ v ++ str "\n"
  | .l vs => kv.1 ++ str ":\n" ++
      (vs.map (fun v => str "- " ++ v ++ str "\n")).flatten

/-- `_build_frontmatter`. -/
def _build_frontmatter (titulo ahora : Str) (tags_list : List Str)
    (agente_creador : Str) (extra_metadata : FmDict) : Str :=
  let metadata := extra_metadata
  let metadata := assocSet (str "title") (.s titulo) metadata
  let metadata := assocSet (str "created") (.s ahora) metadata
  let existing_tags : List Str :=
    match assocFind (str "tags") metadata with
    | some (.s t) => splitTags t
    | some (.l vs) => vs
    | none => []
  let all_tags := tags_list.foldl
    (fun acc tag => if tag ∈ acc then acc else acc ++ [tag]) existing_tags
  let metadata :=
    if all_tags ≠ [] then assocSet (str "tags") (.l all_tags) metadata
    else metadata
  let metadata :=
    if agente_creador ≠ [] then
      assocSet (str "agente_creador") (.s agente_creador) metadata
    else metadata
  str "---\n" ++ (metadata.map yamlDumpLine).flatten ++ str "---\n\n"

/-- The backtick extraction `re.search(r"`([^`]+)`", res_sug)` used by
`create_note` on the folder-suggestion text. -/
def extractBacktickGo : Str → Option Str
  | [] => none
  | c :: rest =>
      if c = '`' then
        let g := rest.takeWhile (· ≠ '`')
        if g ≠ [] ∧ rest.drop g.length ≠ [] then some g
        else extractBacktickGo rest
      else extractBacktickGo rest

/-- The effective target folder of `create_note`: the caller-supplied one,
or the backtick-quoted path in the suggestion text. -/
def create_note_carpeta (carpeta suggested : Str) : Str :=
  if carpeta = [] then (extractBacktickGo suggested).getD [] else carpeta

/-- The resolved note path of `create_note`. -/
def create_note_target (vault titulo carpeta suggested : Str) : Str :=
  let cp := pathJoin vault (create_note_carpeta carpeta suggested)
  let n0 := pathJoin cp (sanitize_filename titulo)
  if ¬ (str ".md").isSuffixOf n0 then n0 ++ str ".md" else n0

/-- `create_note`.  `suggested_location` is the text returned by
`suggest_folder_location` (consulted only when `carpeta` is empty);
`templates_folder` is the configured or auto-detected templates folder;
`parse` classifies `yaml.safe_load` on the caller-supplied body. -/
def create_note (env : SecEnv) (fs : FS)
    (titulo contenido carpeta etiquetas plantilla agente_creador descripcion : Str)
    (suggested_location : Str) (templates_folder : Option Str)
    (parse : Str → YamlRes FmDict) (d : DateParts) : OpOut :=
  if ¬ env.vaultConfigured then
    (.ok (.fail (str "La ruta del vault no está configurada.")), fs)
  else
    let nombre_archivo := sanitize_filename titulo
    let carpeta1 := create_note_carpeta carpeta suggested_location
    let carpeta_path := pathJoin env.vault carpeta1
    let fs1 := fsMkdirParents fs carpeta_path
    let nota_path := create_note_target env.vault titulo carpeta suggested_location
    let chk := check_path_access env nota_path (str "crear nota en")
    if ¬ chk.1 then (.ok (.fail chk.2), fs1)
    else if fsExists fs1 nota_path then
      (.ok (.fail (str "Ya existe una nota con el nombre '" ++
        nombre_archivo ++ str "'")), fs1)
    else
      let ahora := simple_date d
      if plantilla ≠ [] then
        match templates_folder with
        | none =>
            (.ok (.fail (str "No se detectó carpeta de plantillas.")), fs1)
        | some tf =>
            let plantilla_path0 := pathJoin (pathJoin env.vault tf) plantilla
            let plantilla_path :=
              if ¬ (str ".md").isSuffixOf plantilla then
                plantilla_path0 ++ str ".md"
              else plantilla_path0
            match fsRead fs1 plantilla_path with
            | none =>
                (.ok (.fail (str "No se encontró la plantilla '" ++
                  plantilla ++ str "'")), fs1)
            | some t0 =>
                let hora_actual := pad2 d.hour ++ ':' :: pad2 d.minute
                let t1 := pyReplace t0 (str "\x7b\x7btitle\x7d\x7d") titulo
                let t1 := pyReplace t1 (str "\x7b\x7btitulo\x7d\x7d") titulo
                let t1 := pyReplace t1 (str "\x7b\x7bdescription\x7d\x7d") descripcion
                let t1 := pyReplace t1 (str "\x7b\x7bdescripcion\x7d\x7d") descripcion
                let t1 := pyReplace t1 (str "\x7b\x7btime\x7d\x7d") hora_actual
                let t1 := pyReplace t1 (str "\x7b\x7bhora\x7d\x7d") hora_actual
                let t1 := pyReplace t1 (str "\x7b\x7bfolder\x7d\x7d") carpeta1
                let t1 := pyReplace t1 (str "\x7b\x7bcarpeta\x7d\x7d") carpeta1
                let t1 := pyReplace t1 (str "\x7b\x7btags\x7d\x7d") etiquetas
                let t1 := pyReplace t1 (str "\x7b\x7betiquetas\x7d\x7d") etiquetas
                let t1 := _process_date_placeholders d t1
                let contenido_final :=
                  if contenido ≠ [] then
                    let limpio :=
                      (_extract_frontmatter_from_content [] parse contenido).2
                    if (str "\n\n").isSuffixOf t1 then t1 ++ limpio
                    else t1 ++ str "\n\n" ++ limpio
                  else t1
                let contenido_final := _process_date_placeholders d contenido_final
                (.ok (.ok (str "Nota creada: **" ++ titulo ++ str "**")),
                 fsWrite fs1 nota_path contenido_final)
      else
        let tags_list := splitTags etiquetas
        let em := _extract_frontmatter_from_content ([] : FmDict) parse contenido
        let frontmatter :=
          _build_frontmatter titulo ahora tags_list agente_creador em.1
        let contenido_final := frontmatter ++
          (if ¬ (str "#").isPrefixOf (pyLstrip em.2) then
            str "# " ++ titulo ++ str "\n\n"
          else []) ++ em.2
        let contenido_final := _process_date_placeholders d contenido_final
        (.ok (.ok (str "Nota creada: **" ++ titulo ++ str "**")),
         fsWrite fs1 nota_path contenido_final)

/-- `move_note` from `navigation_logic.py`.  Note that it validates vault
confinement and the restricted-folder policy, but does not consult the
forbidden-glob check of `check_path_access`. -/
def move_note (env : SecEnv) (fs : FS) (origen destino : Str)
    (crear_carpetas : Bool) (private_folders : List Str) : OpOut :=
  if ¬ env.vaultConfigured then
    (.ok (.fail (str "Ruta del vault no configurada")), fs)
  else
    let v1 := env.withinVault origen
    if ¬ v1.1 then
      (.ok (.fail (str "Error de seguridad (origen): " ++ v1.2)), fs)
    else
      let v2 := env.withinVault destino
      if ¬ v2.1 then
        (.ok (.fail (str "Error de seguridad (destino): " ++ v2.2)), fs)
      else if env.restricted origen private_folders then
        (.ok (.fail (str "ACCESO DENEGADO: No se permite mover archivos desde carpetas restringidas")), fs)
      else if env.restricted destino private_folders then
        (.ok (.fail (str "ACCESO DENEGADO: No se permite mover archivos hacia carpetas restringidas")), fs)
      else
        let path_origen := pathJoin env.vault origen
        let path_destino := pathJoin env.vault destino
        if ¬ fsExists fs path_origen then
          (.ok (.fail (str "El archivo origen no existe: " ++ origen)), fs)
        else if ¬ fsFileExists fs path_origen then
          (.ok (.fail (str "El origen no es un archivo: " ++ origen)), fs)
        else if fsExists fs path_destino then
          (.ok (.fail (str "El archivo destino ya existe: " ++ destino)), fs)
        else
          let parent := pyDirname path_destino
          if crear_carpetas then
            let fs1 := fsMkdirParents fs parent
            (.ok (.ok (str "Archivo movido/renombrado:\nDe: " ++ origen ++
              str "\nA:  " ++ destino)),
             fsRename fs1 path_origen path_destino)
          else if ¬ (parent ∈ fs.dirs) then
            (.ok (.fail (str "La carpeta destino no existe: " ++
              pyBasename parent)), fs)
          else
            (.ok (.ok (str "Archivo movido/renombrado:\nDe: " ++ origen ++
              str "\nA:  " ++ destino)),
             fsRename fs path_origen path_destino)

/-- Count of non-overlapping occurrences (Python `str.count`). -/
def countSubGo (needle : Str) : Nat → Str → Nat
  | _, [] => 0
  | n + 1, _ :: rest => countSubGo needle n rest
  | 0, c :: rest =>
      if needle.isPrefixOf (c :: rest) then
        1 + countSubGo needle (needle.length - 1) rest
      else countSubGo needle 0 rest

/-- Python `s.count(needle)` for non-empty `needle`. -/
def countSub (needle s : Str) : Nat := countSubGo needle 0 s

/-- The walk-and-filter loop of `search_and_replace_global`: the files of
`fs` in walk order, restricted to `.md` files under `search_path`, with
the excluded-parts filter and `check_path_access`, keeping those that
contain `buscar`, truncated at `limite`. -/
def sarAffected (env : SecEnv) (fs : FS) (search_path : Str)
    (excluded : List Str) (buscar : Str) (limite : Nat) :
    List (Str × Nat × Str) :=
  ((fs.files.filter (fun e =>
      (str ".md").isSuffixOf e.1 ∧
      (search_path ++ ['/']).isPrefixOf e.1 ∧
      ¬ excluded.any (fun excl => excl ∈ splitCh '/' e.1) ∧
      (check_path_access env e.1 (str "buscar en")).1 ∧
      containsSub buscar e.2)).map
    (fun e => (e.1, countSub buscar e.2, e.2))).take limite

/-- `search_and_replace_global` from `creation_logic.py`.  The message
text of the preview/summary is abbreviated to its leading marker; the
claims concern the filesystem effect. -/
def search_and_replace_global (env : SecEnv) (fs : FS)
    (buscar reemplazar carpeta : Str) (solo_preview : Bool) (limite : Nat)
    (excluded_config : List Str) : OpOut :=
  if ¬ env.vaultConfigured then
    (.ok (.fail (str "La ruta del vault no está configurada.")), fs)
  else if buscar = [] then
    (.ok (.fail (str "Debes especificar un texto a buscar.")), fs)
  else
    let search_path := if carpeta ≠ [] then pathJoin env.vault carpeta
      else env.vault
    if carpeta ≠ [] ∧ ¬ (search_path ∈ fs.dirs) then
      (.ok (.fail (str "La carpeta '" ++ carpeta ++ str "' no existe.")), fs)
    else
      let excluded := [str ".git", str ".obsidian", str ".trash",
        str "node_modules"] ++ excluded_config
      let afectados := sarAffected env fs search_path excluded buscar limite
      if afectados = [] then
        (.ok (.ok (str "ℹ️ No se encontró '" ++ buscar ++
          str "' en ninguna nota.")), fs)
      else if solo_preview then
        (.ok (.ok (str "🔍 **Preview de búsqueda**: `" ++ buscar ++ str "`")),
         fs)
      else
        let fs2 := afectados.foldl
          (fun acc a => fsWrite acc a.1 (pyReplace a.2.2 buscar reemplazar))
          fs
        (.ok (.ok (str "✅ **Reemplazo completado**")), fs2)

/-! ## Note-name cache (`utils/vault.py`) -/

/-- The cache key: `name.lower().replace(".md", "")`. -/
def note_cache_key (name : Str) : Str :=
  pyReplace (pyLower name) (str ".md") []

/-- The note-name cache: key to `(timestamp, resolved path or None)`. -/
abbrev NoteCache := List (Str × (ℚ × Option Str))

/-- `find_note_by_name`.  `impl` is what `_find_note_by_name_impl` would
return from the present vault (the rglob scan), `pathExists` is
`Path.exists`, `now` the clock.  Returns the result, the new cache, and
whether the vault was actually rescanned. -/
def find_note_by_name (impl : Option Str) (pathExists : Str → Bool)
    (name : Str) (use_cache : Bool) (now cache_ttl : ℚ)
    (cache : NoteCache) : Option Str × NoteCache × Bool :=
  let cache_key := note_cache_key name
  let scan : Option Str × NoteCache × Bool :=
    (impl, assocSet cache_key (now, impl) cache, true)
  match (if use_cache then assocFind cache_key cache else none) with
  | some (cached_time, cached_path) =>
      if now - cached_time < cache_ttl then
        match cached_path with
        | none => (none, cache, false)
        | some p => if pathExists p then (some p, cache, false) else scan
      else scan
  | none => scan

/-- Default cache TTL (`_get_cache_ttl` fallback and settings default). -/
def cache_ttl_default : Nat := 300

/-! ## Predicates and concrete instances used by the claim statements -/

/-- Index of the first list element satisfying `p`. -/
def firstIdxWith {α : Type} (p : α → Bool) : List α → Option Nat
  | [] => none
  | l :: t => if p l then some 0 else (firstIdxWith p t).map (· + 1)

/-- Well-formedness of the first `updated:` line required for the
substitution of `edit_note` to stay on that line: its remainder holds a
non-whitespace character and the tail pattern matches within the line. -/
def updLineOK (l : Str) : Bool :=
  (l.drop 8).any (fun c => ¬ isPySpace c) && (updTail (l.drop 8)).isSome

/-- Well-formedness of the first `created:` line for the insertion branch. -/
def crLineOK (l : Str) : Bool :=
  (l.drop 8).any (fun c => ¬ isPySpace c) && (crTail (l.drop 8)).isSome

/-- Whether the content is in the fragment on which the `updated:` touch
of `edit_note` acts line-locally (see the C4 analysis). -/
def editNoteReady (cs : Str) : Bool :=
  let lines := splitNl cs
  match firstIdxWith (fun l => (str "updated:").isPrefixOf l) lines with
  | some k => updLineOK (lines.getD k [])
  | none =>
      match firstIdxWith (fun l => (str "created:").isPrefixOf l) lines with
      | some k => crLineOK (lines.getD k [])
      | none => false

/-- The current-date string is non-empty and free of whitespace, quotes
and newlines (true of every `%Y-%m-%d` rendering). -/
def ahoraOK (a : Str) : Bool :=
  a ≠ [] && a.all (fun c => ¬ isPySpace c && ¬ isQuoteCh c && c ≠ '\n')

/-- Default folder suggestion (for head-indexing in statements). -/
def fsuggDefault : FolderSuggestion := ⟨[], 0, 0, []⟩

/-- A vault-confinement check that accepts everything (environments for
concrete runs; resolution is abstracted by `SecEnv`). -/
def allowAllWithin : Str → Bool × Str := fun _ => (true, [])

/-- Environment whose forbidden-glob check denies exactly the private
note used in the concrete runs. -/
def envPrivate : SecEnv :=
  { vaultConfigured := true
    vault := str "/v"
    withinVault := allowAllWithin
    forbiddenCheck := fun p => (p == str "/v/Private/x.md", str "**/Private/*")
    restricted := fun _ _ => false }

/-- Filesystem holding one note at the vault root for the concrete runs. -/
def fsOneNote : FS := ⟨[(str "/v/a.md", str "hi")], [str "/v"]⟩

/-- The sources fed to `suggest_folder` in the concrete run: four notes
under `A`, one under `B`, one under `C`. -/
def c8sources : List Str :=
  [str "A/x.md", str "A/y.md", str "A/z.md", str "A/w.md", str "B/p.md",
   str "C/q.md"]

/-- The concrete `yaml.safe_load` classification used in the front-matter
runs: the single document `a: 1` parses to a one-entry mapping. -/
def c7parse : Str → YamlRes (List (Str × Str)) :=
  fun g => if g = str "a: 1" then .mapping [(str "a", str "1")] else .raises

/-- The two-chunk database of the connection-analyzer run. -/
def c1chunks : List DbChunk :=
  [⟨str "/v/Na.md", [], str "one two three", true⟩,
   ⟨str "/v/Nb.md", [], str "four five six", true⟩]

/-- The note content of the `edit_note` counterexample: front matter with
a `created` field and an `updated:` line with an empty value. -/
def c4content : Str := str "---\ncreated: 2020-01-02\nupdated:\n---\nx"

/-- The clock of the `edit_note` runs (2026-01-02). -/
def c4date : DateParts := ⟨2026, 1, 2, 10, 30, 0, 4⟩

/-! ## Helper lemmas -/

theorem assocFind_assocSet {α : Type} (k : Str) (v : α) (l : List (Str × α)) :
    assocFind k (assocSet k v l) = some v := by
  induction l with
  | nil => simp [assocSet, assocFind]
  | cons h t ih =>
      by_cases hk : h.1 = k
      · simp [assocSet, hk, assocFind]
      · simp [assocSet, hk, assocFind, ih]

theorem fsMkdirParents_files (fs : FS) (d : Str) :
    (fsMkdirParents fs d).files = fs.files := by
  unfold fsMkdirParents
  split <;> rfl

theorem mem_insertStable {α : Type} (before : α → α → Bool) (a x : α)
    (l : List α) : x ∈ insertStable before a l ↔ x = a ∨ x ∈ l := by
  induction l with
  | nil => simp [insertStable]
  | cons h t ih =>
      unfold insertStable
      split
      · simp
      · simp [ih]
        tauto

theorem mem_sortStable {α : Type} (before : α → α → Bool) (x : α)
    (l : List α) : x ∈ sortStable before l ↔ x ∈ l := by
  induction l with
  | nil => simp [sortStable]
  | cons h t ih =>
      unfold sortStable
      rw [mem_insertStable]
      simp [ih]

/-! ## Claim C5 — timeout sentinel of `suggest_connections` -/

/-- C5 counterexample: on a run whose deadline elapsed, the returned list
is the single sentinel with similarity 0, but its `reason` is the Spanish
message, not the string `"timeout"` the claim asserts. -/
theorem C5_sentinel_reason_not_timeout :
    suggest_connections true (str "/v") [] (fun _ _ => 0) 1 10 [] true 100 =
      [timeout_sentinel] ∧
    timeout_sentinel.similarity = 0 ∧
    timeout_sentinel.reason ≠ str "timeout" := by
  refine ⟨rfl, rfl, ?_⟩
  decide

/-- C5 amended: for every call whose computation exceeds the deadline
(default 180 s), `suggest_connections` does not raise and returns exactly
one sentinel suggestion with similarity 0 whose `reason` is the fixed
message `"Timeout. Reduce el umbral o filtra carpetas."` (which begins
with `"Timeout"`, but is not the string `"timeout"`). -/
theorem C5_timeout_sentinel (vault : Str) (chunks : List DbChunk)
    (sim : Nat → Nat → ℚ) (threshold : ℚ) (limit : Nat) (incl : List Str)
    (excluirMocs : Bool) (minPal : Nat) :
    suggest_connections true vault chunks sim threshold limit incl
        excluirMocs minPal = [timeout_sentinel] ∧
    timeout_sentinel.similarity = 0 ∧
    timeout_sentinel.reason =
      str "Timeout. Reduce el umbral o filtra carpetas." ∧
    suggest_connections_default_timeout = 180 := by
  exact ⟨rfl, rfl, rfl, rfl⟩

/-! ## Claim C6 — hybrid retriever configuration -/

/-- C6 counterexample: with all defaults (as `create_retriever_with_reranker`
invokes it) on a non-empty store, the hybrid retriever is built with
`bm25_k = 5`, not `10` as the claim states. -/
theorem C6_bm25_default_is_five :
    create_retriever_with_reranker [str "doc"] false true false =
      .rerank 6 (.ensemble 5 12 bm25_weight_default vector_weight_default) ∧
    bm25_k_default = 5 ∧ bm25_k_default ≠ 10 := by
  refine ⟨rfl, rfl, ?_⟩
  decide

/-- C6 amended: on a store with documents, the retriever computes BM25
top-`bm25_k` with default `bm25_k = 5` (not 10) and dense top-`vector_k`
with default 12, fuses with weights `(0.4, 0.6)`, and when the
cross-encoder re-ranker is configured returns the top `rerank_top_n = 6`;
on a re-ranker configuration failure it falls back to the fused ensemble. -/
theorem C6_retriever_config (dbTexts : List Str) (hne : dbTexts ≠ []) :
    create_retriever_with_reranker dbTexts false true false =
      .rerank reranker_top_n_default
        (.ensemble bm25_k_default vector_k_default bm25_weight_default
          vector_weight_default) ∧
    create_retriever_with_reranker dbTexts false true true =
      .ensemble bm25_k_default vector_k_default bm25_weight_default
        vector_weight_default ∧
    bm25_k_default = 5 ∧ vector_k_default = 12 ∧
    reranker_top_n_default = 6 ∧
    bm25_weight_default = 2 / 5 ∧ vector_weight_default = 3 / 5 := by
  refine ⟨?_, ?_, rfl, rfl, rfl, rfl, rfl⟩ <;>
    (unfold create_retriever_with_reranker create_hybrid_retriever
     simp [hne])

/-- C6 witness: the amended configuration at a one-document store. -/
theorem C6_retriever_config_witness :
    create_retriever_with_reranker [str "doc"] false true false =
      .rerank reranker_top_n_default
        (.ensemble bm25_k_default vector_k_default bm25_weight_default
          vector_weight_default) ∧
    create_retriever_with_reranker [str "doc"] false true true =
      .ensemble bm25_k_default vector_k_default bm25_weight_default
        vector_weight_default ∧
    bm25_k_default = 5 ∧ vector_k_default = 12 ∧
    reranker_top_n_default = 6 ∧
    bm25_weight_default = 2 / 5 ∧ vector_weight_default = 3 / 5 :=
  C6_retriever_config [str "doc"] (by decide)

/-! ## Claim C3 — full-build failure and the pre-existing store -/

/-- C3 counterexample: a full rebuild over an existing store whose
embedding/store-construction step raises leaves the on-disk store deleted
(`shutil.rmtree` ran first) and propagates the exception instead of
returning `success=false`. -/
theorem C3_full_build_deletes_store_on_embed_failure :
    load_or_create_db ⟨some [(str "a.md", str "old")]⟩ true false [] [] []
        (.ok [(str "b.md", str "doc")]) [] (fun dd => .ok dd)
        (fun _ => .error ()) (fun dd => .ok dd) =
      (.error (), ⟨none⟩) ∧
    (⟨some [(str "a.md", str "old")]⟩ : IdxWorld) ≠ ⟨none⟩ := by
  refine ⟨rfl, ?_⟩
  decide

/-- C3 amended: on the full-build path, a failure while loading or
splitting (or an empty vault) leaves any pre-existing store untouched —
and an empty vault is the one case reported as `success=false` — but a
failure of the embedding/store-construction step happens after the
pre-existing store directory has been deleted: the store is lost and the
exception propagates (no `success=false` is returned). -/
theorem C3_full_build_failure_behavior (world : IdxWorld)
    (force should : Bool) (nf mf df : List Str)
    (loadAll : Except Unit (List IdxDoc)) (loadPaths : List IdxDoc)
    (splitDocs : List IdxDoc → Except Unit (List IdxDoc))
    (fromDocuments : List IdxDoc → Except Unit (List IdxDoc))
    (addDocuments : List IdxDoc → Except Unit (List IdxDoc))
    (hFull : world.persisted.isSome = false ∨ force = true ∨ should = true) :
    (loadAll = .error () →
      load_or_create_db world force should nf mf df loadAll loadPaths
        splitDocs fromDocuments addDocuments = (.error (), world)) ∧
    (loadAll = .ok [] →
      load_or_create_db world force should nf mf df loadAll loadPaths
        splitDocs fromDocuments addDocuments =
        (.ok (none, statsZero), world) ∧
      index_vault world force should nf mf df loadAll loadPaths
        splitDocs fromDocuments addDocuments =
        (.ok (none, statsZero, false), world)) ∧
    (∀ docs, loadAll = .ok docs → docs ≠ [] → splitDocs docs = .error () →
      load_or_create_db world force should nf mf df loadAll loadPaths
        splitDocs fromDocuments addDocuments = (.error (), world)) ∧
    (∀ docs texts, loadAll = .ok docs → docs ≠ [] →
      splitDocs docs = .ok texts → fromDocuments texts = .error () →
      world.persisted.isSome = true →
      load_or_create_db world force should nf mf df loadAll loadPaths
        splitDocs fromDocuments addDocuments = (.error (), ⟨none⟩)) := by
  have hcond : ¬ (world.persisted.isSome = true ∧ ¬ force = true ∧
      ¬ should = true) := by
    rcases hFull with h | h | h <;> simp [h]
  refine ⟨?_, ?_, ?_, ?_⟩
  · intro hl
    unfold load_or_create_db
    simp only [hl]
    rw [if_neg (by simpa using hcond)]
  · intro hl
    constructor
    · unfold load_or_create_db
      simp only [hl]
      rw [if_neg (by simpa using hcond)]
      simp
    · unfold index_vault load_or_create_db
      simp only [hl]
      rw [if_neg (by simpa using hcond)]
      simp
  · intro docs hl hne hsp
    unfold load_or_create_db
    simp only [hl]
    rw [if_neg (by simpa using hcond)]
    simp [hne, hsp]
  · intro docs texts hl hne hsp hfd hex
    unfold load_or_create_db
    simp only [hl]
    rw [if_neg (by simpa using hcond)]
    simp [hne, hsp, hfd, hex]

/-- C3 witness: the amended behavior evaluated on a one-note vault with an
existing store whose embedding step raises. -/
theorem C3_full_build_failure_behavior_witness :
    load_or_create_db ⟨some [(str "a.md", str "old")]⟩ true false [] [] []
        (.ok [(str "b.md", str "doc")]) [] (fun dd => .ok dd)
        (fun _ => .error ()) (fun dd => .ok dd) = (.error (), ⟨none⟩) :=
  (C3_full_build_failure_behavior ⟨some [(str "a.md", str "old")]⟩ true false
      [] [] [] (.ok [(str "b.md", str "doc")]) [] (fun dd => .ok dd)
      (fun _ => .error ()) (fun dd => .ok dd)
      (Or.inr (Or.inl rfl))).2.2.2
    [(str "b.md", str "doc")] [(str "b.md", str "doc")] rfl (by decide) rfl
    rfl rfl

/-! ## Claim C10 — negative caching in `find_note_by_name` -/

/-- C10: when a lookup scans the vault and finds nothing, the `None`
result is cached under `name.lower()` with `".md"` removed; any later
call for the same name with `use_cache=True` within the TTL returns
`None` without rescanning — whatever the vault now contains and whether
or not a matching note has been created in the meantime. -/
theorem C10_negative_cache_ttl (name : Str) (pathEx pathEx1 : Str → Bool)
    (now t1 ttl : ℚ) (c0 : NoteCache) (impl1 : Option Str)
    (h0 : assocFind (note_cache_key name) c0 = none)
    (h1 : t1 - now < ttl) :
    find_note_by_name none pathEx name true now ttl c0 =
      (none, assocSet (note_cache_key name) (now, none) c0, true) ∧
    find_note_by_name impl1 pathEx1 name true t1 ttl
        (assocSet (note_cache_key name) (now, none) c0) =
      (none, assocSet (note_cache_key name) (now, none) c0, false) := by
  constructor
  · unfold find_note_by_name
    simp [h0]
  · unfold find_note_by_name
    simp only [if_pos, assocFind_assocSet, if_true]
    simp [h1]

/-- C10 witness: a miss at time 0 with an empty cache, then a hit of the
cached `None` at time 1 (TTL 300) although the note now exists. -/
theorem C10_negative_cache_ttl_witness :
    find_note_by_name none (fun _ => true) (str "Note.md") true 0 300 [] =
      (none, assocSet (note_cache_key (str "Note.md")) (0, none) [], true) ∧
    find_note_by_name (some (str "/v/Note.md")) (fun _ => true)
        (str "Note.md") true 1 300
        (assocSet (note_cache_key (str "Note.md")) (0, none) []) =
      (none, assocSet (note_cache_key (str "Note.md")) (0, none) [], false) :=
  C10_negative_cache_ttl (str "Note.md") (fun _ => true) (fun _ => true)
    0 1 300 [] (some (str "/v/Note.md")) rfl (by norm_num)

/-! ## Claim C9 — `create_note` creates directories before its checks -/

/-- C9: `create_note` resolves the target folder and runs `mkdir(parents=True,
exist_ok=True)` on it before the forbidden-path check and the duplicate
check; a call failing either check therefore returns a failure with no note
file written, but with the directory creation already applied. -/
theorem C9_create_note_mkdir_first (env : SecEnv) (fs : FS)
    (titulo contenido carpeta etiquetas plantilla agente descripcion sugg : Str)
    (tf : Option Str) (parse : Str → YamlRes FmDict) (d : DateParts)
    (hv : env.vaultConfigured = true) :
    (((check_path_access env (create_note_target env.vault titulo carpeta sugg)
        (str "crear nota en")).1 = false) →
      create_note env fs titulo contenido carpeta etiquetas plantilla agente
          descripcion sugg tf parse d =
        (.ok (.fail (check_path_access env
            (create_note_target env.vault titulo carpeta sugg)
            (str "crear nota en")).2),
         fsMkdirParents fs
           (pathJoin env.vault (create_note_carpeta carpeta sugg)))) ∧
    (((check_path_access env (create_note_target env.vault titulo carpeta sugg)
        (str "crear nota en")).1 = true) →
      fsExists
          (fsMkdirParents fs
            (pathJoin env.vault (create_note_carpeta carpeta sugg)))
          (create_note_target env.vault titulo carpeta sugg) = true →
      create_note env fs titulo contenido carpeta etiquetas plantilla agente
          descripcion sugg tf parse d =
        (.ok (.fail (str "Ya existe una nota con el nombre '" ++
          sanitize_filename titulo ++ str "'")),
         fsMkdirParents fs
           (pathJoin env.vault (create_note_carpeta carpeta sugg)))) ∧
    (fsMkdirParents fs
        (pathJoin env.vault (create_note_carpeta carpeta sugg))).files =
      fs.files := by
  refine ⟨?_, ?_, fsMkdirParents_files _ _⟩
  · intro hchk
    unfold create_note
    simp [hv, hchk]
  · intro hchk hex
    unfold create_note
    simp [hv, hchk, hex]

/-- C9 witness: creating `secret` inside the forbidden folder `Private`
fails, writes no file, and leaves the new directory registered. -/
theorem C9_create_note_mkdir_first_witness :
    ((check_path_access envPrivate
        (create_note_target envPrivate.vault (str "x") (str "Private") [])
        (str "crear nota en")).1 = false) ∧
    create_note envPrivate ⟨[], [str "/v"]⟩ (str "x") [] (str "Private") []
        [] [] [] [] none (fun _ => .raises) c4date =
      (.ok (.fail (check_path_access envPrivate
          (create_note_target envPrivate.vault (str "x") (str "Private") [])
          (str "crear nota en")).2),
       fsMkdirParents ⟨[], [str "/v"]⟩
         (pathJoin envPrivate.vault
           (create_note_carpeta (str "Private") []))) ∧
    (create_note envPrivate ⟨[], [str "/v"]⟩ (str "x") [] (str "Private") []
        [] [] [] [] none (fun _ => .raises) c4date).2.dirs =
      [str "/v", str "/v/Private"] ∧
    (create_note envPrivate ⟨[], [str "/v"]⟩ (str "x") [] (str "Private") []
        [] [] [] [] none (fun _ => .raises) c4date).2.files = [] := by
  refine ⟨by decide, ?_, by decide, by decide⟩
  exact (C9_create_note_mkdir_first envPrivate ⟨[], [str "/v"]⟩ (str "x") []
    (str "Private") [] [] [] [] [] none (fun _ => .raises) c4date rfl).1
    (by decide)

/-! ## Claim C2 — the Path Policy entry point over the write path -/

theorem assocFind_assocSet_ne {α : Type} (k q : Str) (v : α)
    (l : List (Str × α)) (h : ¬ k = q) :
    assocFind q (assocSet k v l) = assocFind q l := by
  induction l with
  | nil => simp [assocSet, assocFind, h]
  | cons hd t ih =>
      by_cases hk : hd.1 = k
      · simp [assocSet, hk, assocFind, h]
      · simp only [assocSet, if_neg hk]
        by_cases hq : hd.1 = q <;> simp [assocFind, hq, ih]

theorem fsRead_fsWrite_ne (fs : FS) (p q c : Str) (h : ¬ p = q) :
    fsRead (fsWrite fs p c) q = fsRead fs q := by
  unfold fsRead fsWrite
  exact assocFind_assocSet_ne p q c fs.files h

theorem fsRead_foldl_writes {α : Type} (g : α → Str) (f : α → Str)
    (L : List α) (fs : FS) (q : Str) (h : ∀ a ∈ L, ¬ g a = q) :
    fsRead (L.foldl (fun acc a => fsWrite acc (g a) (f a)) fs) q =
      fsRead fs q := by
  induction L generalizing fs with
  | nil => rfl
  | cons hd t ih =>
      simp only [List.foldl_cons]
      rw [ih _ (fun a ha => h a (List.mem_cons_of_mem hd ha))]
      exact fsRead_fsWrite_ne fs (g hd) q (f hd) (h hd (List.mem_cons_self hd t))

/-- Every file touched by `search_and_replace_global` passed
`check_path_access`: a denied path's content is never modified. -/
theorem sar_denied_unchanged (env : SecEnv) (fs : FS)
    (buscar reemplazar carpeta : Str) (solo_preview : Bool) (limite : Nat)
    (excluded_config : List Str) (q : Str)
    (hq : (check_path_access env q (str "buscar en")).1 = false) :
    fsRead (search_and_replace_global env fs buscar reemplazar carpeta
        solo_preview limite excluded_config).2 q = fsRead fs q := by
  unfold search_and_replace_global
  dsimp only
  split_ifs <;> try rfl
  all_goals
    refine fsRead_foldl_writes (fun (a : Str × Nat × Str) => a.1)
      (fun (a : Str × Nat × Str) => pyReplace a.2.2 buscar reemplazar) _ fs q ?_
  all_goals
    intro a ha
    unfold sarAffected at ha
    obtain ⟨e, he, hae⟩ := List.mem_map.mp (List.mem_of_mem_take ha)
    have hfe := (List.mem_filter.mp he).2
    intro hgq
    rw [← hae] at hgq
    simp only at hgq
    rw [hgq] at hfe
    simp only [hq] at hfe
    simp at hfe

/-- C2 counterexample: `move_note` never consults the forbidden-glob
check, so a destination denied by `check_path_access` is moved into
anyway: the call succeeds and the file appears at the forbidden path. -/
theorem C2_move_note_skips_forbidden_check :
    (check_path_access envPrivate (str "/v/Private/x.md") (str "mover")).1 =
      false ∧
    (move_note envPrivate fsOneNote (str "a.md") (str "Private/x.md") true
        [str "**/Privado/*"]).1 =
      .ok (.ok (str "Archivo movido/renombrado:\nDe: a.md\nA:  Private/x.md")) ∧
    fsFileExists
      (move_note envPrivate fsOneNote (str "a.md") (str "Private/x.md") true
        [str "**/Privado/*"]).2 (str "/v/Private/x.md") = true ∧
    fsFileExists fsOneNote (str "/v/Private/x.md") = false := by
  exact ⟨rfl, rfl, by decide, by decide⟩

/-- C2 amended: `edit_note`, `append_to_note`, `append_to_section`,
`delete_note` and `search_and_replace` pass their target through
`check_path_access` before writing and fail without filesystem
modification when it denies; `create_note` also consults it before
writing the note file, but only after creating the target directories
(see C9); `move_note`, however, never consults the forbidden-glob check —
it enforces vault confinement and the restricted-folder policy instead,
and fails without modification only when those deny. -/
theorem C2_write_path_guards :
    (∀ (env : SecEnv) (find : Str → Option Str) (fs : FS)
        (name content : Str) (d : DateParts) (p : Str),
      env.vaultConfigured = true → find name = some p →
      (check_path_access env p (str "editar")).1 = false →
      edit_note env find fs name content d =
        (.ok (.fail (check_path_access env p (str "editar")).2), fs)) ∧
    (∀ (env : SecEnv) (find : Str → Option Str) (fs : FS)
        (name content : Str) (alf : Bool) (p : Str),
      env.vaultConfigured = true → find name = some p →
      (check_path_access env p (str "modificar")).1 = false →
      append_to_note env find fs name content alf =
        (.ok (.fail (check_path_access env p (str "modificar")).2), fs)) ∧
    (∀ (env : SecEnv) (find : Str → Option Str) (fs : FS)
        (name sec content : Str) (cr : Bool) (p : Str),
      env.vaultConfigured = true → find name = some p →
      (check_path_access env p (str "modificar")).1 = false →
      append_to_section env find fs name sec content cr =
        (.ok (.fail (check_path_access env p (str "modificar")).2), fs)) ∧
    (∀ (env : SecEnv) (find : Str → Option Str) (fs : FS) (name p : Str),
      env.vaultConfigured = true → find name = some p →
      (check_path_access env p (str "eliminar")).1 = false →
      delete_note env find fs name true =
        (.ok (.fail (check_path_access env p (str "eliminar")).2), fs)) ∧
    (∀ (env : SecEnv) (fs : FS)
        (titulo contenido carpeta etiquetas plantilla agente descripcion
          sugg : Str) (tf : Option Str) (parse : Str → YamlRes FmDict)
        (d : DateParts),
      env.vaultConfigured = true →
      (check_path_access env (create_note_target env.vault titulo carpeta sugg)
        (str "crear nota en")).1 = false →
      (create_note env fs titulo contenido carpeta etiquetas plantilla agente
          descripcion sugg tf parse d).1 =
        .ok (.fail (check_path_access env
          (create_note_target env.vault titulo carpeta sugg)
          (str "crear nota en")).2) ∧
      (create_note env fs titulo contenido carpeta etiquetas plantilla agente
          descripcion sugg tf parse d).2.files = fs.files) ∧
    (∀ (env : SecEnv) (fs : FS) (o dst : Str) (cc : Bool) (priv : List Str),
      env.vaultConfigured = true →
      (((env.withinVault o).1 = false →
          move_note env fs o dst cc priv =
            (.ok (.fail (str "Error de seguridad (origen): " ++
              (env.withinVault o).2)), fs)) ∧
       ((env.withinVault o).1 = true → (env.withinVault dst).1 = false →
          move_note env fs o dst cc priv =
            (.ok (.fail (str "Error de seguridad (destino): " ++
              (env.withinVault dst).2)), fs)) ∧
       ((env.withinVault o).1 = true → (env.withinVault dst).1 = true →
          env.restricted o priv = true →
          move_note env fs o dst cc priv =
            (.ok (.fail (str "ACCESO DENEGADO: No se permite mover archivos desde carpetas restringidas")), fs)) ∧
       ((env.withinVault o).1 = true → (env.withinVault dst).1 = true →
          env.restricted o priv = false → env.restricted dst priv = true →
          move_note env fs o dst cc priv =
            (.ok (.fail (str "ACCESO DENEGADO: No se permite mover archivos hacia carpetas restringidas")), fs)))) ∧
    (∀ (env : SecEnv) (fs : FS) (buscar reemplazar carpeta : Str)
        (sp : Bool) (limite : Nat) (exc : List Str) (q : Str),
      (check_path_access env q (str "buscar en")).1 = false →
      fsRead (search_and_replace_global env fs buscar reemplazar carpeta sp
        limite exc).2 q = fsRead fs q) := by
  refine ⟨?_, ?_, ?_, ?_, ?_, ?_, ?_⟩
  · intro env find fs name content d p hv hf hc
    unfold edit_note
    simp [hv, hf, hc]
  · intro env find fs name content alf p hv hf hc
    unfold append_to_note
    simp [hv, hf, hc]
  · intro env find fs name sec content cr p hv hf hc
    unfold append_to_section
    simp [hv, hf, hc]
  · intro env find fs name p hv hf hc
    unfold delete_note
    simp [hv, hf, hc]
  · intro env fs titulo contenido carpeta etiquetas plantilla agente
      descripcion sugg tf parse d hv hc
    constructor
    · unfold create_note
      simp [hv, hc]
    · unfold create_note
      simp [hv, hc, fsMkdirParents_files]
  · intro env fs o dst cc priv hv
    refine ⟨?_, ?_, ?_, ?_⟩
    · intro h1
      unfold move_note
      simp [hv, h1]
    · intro h1 h2
      unfold move_note
      simp [hv, h1, h2]
    · intro h1 h2 h3
      unfold move_note
      simp [hv, h1, h2, h3]
    · intro h1 h2 h3 h4
      unfold move_note
      simp [hv, h1, h2, h3, h4]
  · intro env fs buscar reemplazar carpeta sp limite exc q hq
    exact sar_denied_unchanged env fs buscar reemplazar carpeta sp limite
      exc q hq

/-- C2 witness: the `edit_note` guard at the concrete denied path. -/
theorem C2_write_path_guards_witness :
    edit_note envPrivate (fun _ => some (str "/v/Private/x.md")) fsOneNote
        (str "x") (str "new") c4date =
      (.ok (.fail (check_path_access envPrivate (str "/v/Private/x.md")
        (str "editar")).2), fsOneNote) :=
  C2_write_path_guards.1 envPrivate (fun _ => some (str "/v/Private/x.md"))
    fsOneNote (str "x") (str "new") c4date (str "/v/Private/x.md") rfl rfl
    (by decide)

/-! ## Claim C7 — front-matter split -/

theorem dropWhile_idem {α : Type} (p : α → Bool) (l : List α) :
    (l.dropWhile p).dropWhile p = l.dropWhile p := by
  induction l with
  | nil => rfl
  | cons h t ih =>
      by_cases hp : p h
      · simp [List.dropWhile, hp, ih]
      · simp [List.dropWhile, hp]

theorem drop_wsRun_eq_dropWhile (l : Str) :
    l.drop (wsRun l) = l.dropWhile isPySpace := by
  induction l with
  | nil => rfl
  | cons h t ih =>
      by_cases hp : isPySpace h
      · have h1 : wsRun (h :: t) = wsRun t + 1 := by
          simp [wsRun, List.takeWhile, hp]
        rw [h1, List.drop_succ_cons, ih]
        simp [List.dropWhile, hp]
      · have h1 : wsRun (h :: t) = 0 := by
          simp [wsRun, List.takeWhile, hp]
        rw [h1]
        simp [List.dropWhile, hp]

theorem pyLstrip_drop_wsRun (body : Str) :
    pyLstrip (body.drop (wsRun body)) = pyLstrip body := by
  rw [drop_wsRun_eq_dropWhile]
  unfold pyLstrip
  exact dropWhile_idem isPySpace body

/-- The front-matter regex on the structured content
`"---\n" ++ g ++ "\n---\n" ++ body` (first line exactly `---`, group
starting with a non-whitespace character, first `\n---` at the closing
delimiter). -/
theorem fmMatch_structured (gh : Char) (gt body : Str)
    (hg2 : isPySpace gh = false)
    (hfind : findSub (str "\n---") ((gh :: gt) ++ str "\n---\n" ++ body) =
      some (gh :: gt).length) :
    fmMatch (str "---\n" ++ (gh :: gt) ++ str "\n---\n" ++ body) =
      some (gh :: gt, 9 + (gh :: gt).length + wsRun body) := by
  have hgh : ¬ gh = '\n' := by
    intro h
    subst h
    simp [isPySpace] at hg2
  have hpre : (str "---").isPrefixOf
      (str "---\n" ++ (gh :: gt) ++ str "\n---\n" ++ body) = true := by
    simp [str, List.isPrefixOf]
  simp only [fmMatch, hpre, if_true]
  have hr : (str "---\n" ++ (gh :: gt) ++ str "\n---\n" ++ body).drop 3 =
      '\n' :: ((gh :: gt) ++ (str "\n---\n" ++ body)) := by
    simp [str]
  rw [hr]
  have hws : wsRun ('\n' :: ((gh :: gt) ++ (str "\n---\n" ++ body))) = 1 := by
    simp [wsRun, List.takeWhile, List.cons_append, hg2]
    simp [isPySpace]
  rw [hws]
  simp only [fmTryOpen]
  have hgd1 : ('\n' :: ((gh :: gt) ++ (str "\n---\n" ++ body))).getD 1 ' ' =
      gh := by
    simp [List.getD, List.cons_append]
  rw [hgd1, if_neg hgh]
  have hgd0 : ('\n' :: ((gh :: gt) ++ (str "\n---\n" ++ body))).getD 0 ' ' =
      '\n' := rfl
  rw [hgd0, if_pos rfl]
  have hd1 : ('\n' :: ((gh :: gt) ++ (str "\n---\n" ++ body))).drop 1 =
      (gh :: gt) ++ (str "\n---\n" ++ body) := rfl
  rw [hd1]
  have hfind' : findSub (str "\n---")
      ((gh :: gt) ++ (str "\n---\n" ++ body)) = some (gh :: gt).length := by
    have hassoc : (gh :: gt) ++ (str "\n---\n" ++ body) =
        (gh :: gt) ++ str "\n---\n" ++ body := by simp
    rw [hassoc]
    exact hfind
  rw [hfind']
  dsimp only
  simp only [Nat.zero_add]
  have htake : ((gh :: gt) ++ (str "\n---\n" ++ body)).take
      (gh :: gt).length = gh :: gt := List.take_left (gh :: gt) _
  have hdrop4 : ('\n' :: ((gh :: gt) ++ (str "\n---\n" ++ body))).drop
      (1 + (gh :: gt).length + 4) = '\n' :: body := by
    have h0 : 1 + (gh :: gt).length + 4 = ((gh :: gt).length + 4) + 1 := by
      omega
    rw [h0, List.drop_succ_cons, ← List.drop_drop, List.drop_left]
    rfl
  rw [htake, hdrop4]
  have hws2 : wsRun ('\n' :: body) = 1 + wsRun body := by
    have : List.takeWhile isPySpace ('\n' :: body) =
        '\n' :: List.takeWhile isPySpace body := by
      simp [List.takeWhile]
      simp [isPySpace]
    simp [wsRun, this]
    omega
  rw [hws2]
  congr 2
  omega

/-- C7 counterexample: on front matter followed by two blank lines before
the body, the split returns the body with all leading whitespace removed
(`"body"`), not the claimed suffix with exactly one leading blank line
trimmed (which would retain a newline). -/
theorem C7_lstrip_not_single_blank :
    _extract_frontmatter_from_content [] c7parse
        (str "---\na: 1\n---\n\n\nbody") =
      ([(str "a", str "1")], str "body") ∧
    (str "body" : Str) ≠ '\n' :: str "body" := by
  exact ⟨by decide, by decide⟩

/-- C7 amended: the split returns `({}, original)` when the block is
absent, when the YAML parse raises, or when it yields a truthy
non-mapping; when it yields a mapping the split returns the mapping and
the suffix with all leading whitespace trimmed (not exactly one blank
line); a falsy parse (e.g. `None`) also yields the empty mapping with the
trimmed suffix. -/
theorem C7_frontmatter_split {γ : Type} (emptyD : γ)
    (parse : Str → YamlRes γ) (gh : Char) (gt body : Str)
    (hg2 : isPySpace gh = false)
    (hfind : findSub (str "\n---") ((gh :: gt) ++ str "\n---\n" ++ body) =
      some (gh :: gt).length) :
    (∀ cs, ¬ (str "---").isPrefixOf cs →
      _extract_frontmatter_from_content emptyD parse cs = (emptyD, cs)) ∧
    (parse (gh :: gt) = .raises →
      _extract_frontmatter_from_content emptyD parse
          (str "---\n" ++ (gh :: gt) ++ str "\n---\n" ++ body) =
        (emptyD, str "---\n" ++ (gh :: gt) ++ str "\n---\n" ++ body)) ∧
    (parse (gh :: gt) = .nonMapping →
      _extract_frontmatter_from_content emptyD parse
          (str "---\n" ++ (gh :: gt) ++ str "\n---\n" ++ body) =
        (emptyD, str "---\n" ++ (gh :: gt) ++ str "\n---\n" ++ body)) ∧
    (∀ m, parse (gh :: gt) = .mapping m →
      _extract_frontmatter_from_content emptyD parse
          (str "---\n" ++ (gh :: gt) ++ str "\n---\n" ++ body) =
        (m, pyLstrip body)) ∧
    (parse (gh :: gt) = .falsy →
      _extract_frontmatter_from_content emptyD parse
          (str "---\n" ++ (gh :: gt) ++ str "\n---\n" ++ body) =
        (emptyD, pyLstrip body)) := by
  have hdropE : (str "---\n" ++ (gh :: gt) ++ str "\n---\n" ++ body).drop
      (9 + (gh :: gt).length + wsRun body) = body.drop (wsRun body) := by
    have h1 : str "---\n" ++ (gh :: gt) ++ str "\n---\n" ++ body =
        (str "---\n" ++ (gh :: gt) ++ str "\n---\n") ++ body := by simp
    have h2 : 9 + (gh :: gt).length + wsRun body =
        (str "---\n" ++ (gh :: gt) ++ str "\n---\n").length + wsRun body := by
      simp [str]
      omega
    rw [h1, h2, ← List.drop_drop, List.drop_left]
  have hmatch := fmMatch_structured gh gt body hg2 hfind
  refine ⟨?_, ?_, ?_, ?_, ?_⟩
  · intro cs hcs
    unfold _extract_frontmatter_from_content fmMatch
    rw [if_neg (by simpa using hcs)]
  · intro hp
    unfold _extract_frontmatter_from_content
    rw [hmatch]
    dsimp only
    rw [hp]
  · intro hp
    unfold _extract_frontmatter_from_content
    rw [hmatch]
    dsimp only
    rw [hp]
  · intro m hp
    unfold _extract_frontmatter_from_content
    rw [hmatch]
    dsimp only
    rw [hp, hdropE, pyLstrip_drop_wsRun]
  · intro hp
    unfold _extract_frontmatter_from_content
    rw [hmatch]
    dsimp only
    rw [hp, hdropE, pyLstrip_drop_wsRun]

/-- C7 witness: the amended behavior at `g = "a: 1"`, `body = "\n\nbody"`
under the concrete parse. -/
theorem C7_frontmatter_split_witness :
    _extract_frontmatter_from_content [] c7parse
        (str "---\n" ++ ('a' :: str ": 1") ++ str "\n---\n" ++
          str "\n\nbody") =
      ([(str "a", str "1")], pyLstrip (str "\n\nbody")) :=
  (C7_frontmatter_split [] c7parse 'a' (str ": 1") (str "\n\nbody")
      (by decide) (by decide)).2.2.2.1
    [(str "a", str "1")] rfl

/-! ## Claim C8 — folder suggestion confidences -/

theorem floor_200_3 : ⌊(200 : ℚ) / 3⌋ = 66 := by
  rw [Int.floor_eq_iff]
  constructor <;> norm_num

theorem floor_100_6 : ⌊(100 : ℚ) * (1 / 6)⌋ = 16 := by
  rw [Int.floor_eq_iff]
  constructor <;> norm_num

theorem pyRound2_four_sixths : pyRound2 ((4 : ℚ) / 6) = 67 / 100 := by
  unfold pyRound2 roundHalfEven
  have h1 : (100 : ℚ) * ((4 : ℚ) / 6) = 200 / 3 := by norm_num
  rw [h1, floor_200_3]
  rw [if_neg (by push_cast; norm_num), if_pos (by push_cast; norm_num)]
  push_cast
  norm_num

theorem pyRound2_one_sixth : pyRound2 ((1 : ℚ) / 6) = 17 / 100 := by
  unfold pyRound2 roundHalfEven
  have h1 : (100 : ℚ) * ((1 : ℚ) / 6) = 100 * (1 / 6) := by norm_num
  rw [h1, floor_100_6]
  rw [if_neg (by push_cast; norm_num), if_pos (by push_cast; norm_num)]
  push_cast
  norm_num

/-- Evaluation of the folder suggester on the six concrete sources. -/
theorem c8out_eval : suggest_folder c8sources 6 3 =
    [⟨str "A", 4, pyRound2 ((4 : ℚ) / 6), [str "x", str "y", str "z"]⟩,
     ⟨str "B", 1, pyRound2 ((1 : ℚ) / 6), [str "p"]⟩,
     ⟨str "C", 1, pyRound2 ((1 : ℚ) / 6), [str "q"]⟩] := rfl

/-- C8 counterexample: votes `(4, 1, 1)` over six results give rounded
confidences `0.67, 0.17, 0.17`: each differs from `votes / total_votes`
and they sum to `1.01 > 1`. -/
theorem C8_confidence_rounded_sum_exceeds_one :
    ((suggest_folder c8sources 6 3).map (fun s => s.confidence)).sum =
      101 / 100 ∧
    ¬ ((suggest_folder c8sources 6 3).map (fun s => s.confidence)).sum ≤ 1 ∧
    ((suggest_folder c8sources 6 3).headD fsuggDefault).votes = 4 ∧
    totalVotesOf c8sources 6 = 6 ∧
    ((suggest_folder c8sources 6 3).headD fsuggDefault).confidence ≠
      (4 : ℚ) / 6 := by
  rw [c8out_eval]
  have hsum : (([⟨str "A", 4, pyRound2 ((4 : ℚ) / 6),
      [str "x", str "y", str "z"]⟩,
      ⟨str "B", 1, pyRound2 ((1 : ℚ) / 6), [str "p"]⟩,
      ⟨str "C", 1, pyRound2 ((1 : ℚ) / 6), [str "q"]⟩] :
        List FolderSuggestion).map (fun s => s.confidence)).sum =
      101 / 100 := by
    simp only [List.map_cons, List.map_nil, List.sum_cons, List.sum_nil,
      pyRound2_four_sixths, pyRound2_one_sixth]
    norm_num
  refine ⟨hsum, ?_, rfl, rfl, ?_⟩
  · rw [hsum]
    norm_num
  · simp only [List.headD_cons]
    rw [pyRound2_four_sixths]
    norm_num

theorem insertStable_pairwise_desc {α : Type} (key : α → Nat) (a : α)
    (l : List α) (h : List.Pairwise (fun x y => key y ≤ key x) l) :
    List.Pairwise (fun x y => key y ≤ key x)
      (insertStable (fun x y => key y ≤ key x) a l) := by
  induction l with
  | nil => simp [insertStable]
  | cons b t ih =>
      unfold insertStable
      rcases List.pairwise_cons.mp h with ⟨hb, ht⟩
      by_cases hc : key b ≤ key a
      · rw [if_pos (by simpa using hc)]
        refine List.pairwise_cons.mpr ⟨?_, h⟩
        intro c hc2
        rcases List.mem_cons.mp hc2 with rfl | hc3
        · exact hc
        · exact le_trans (hb c hc3) hc
      · rw [if_neg (by simpa using hc)]
        refine List.pairwise_cons.mpr ⟨?_, ih ht⟩
        intro c hc2
        rcases (mem_insertStable _ a c t).mp hc2 with rfl | hc3
        · omega
        · exact hb c hc3

theorem sortStable_pairwise_desc {α : Type} (key : α → Nat) (l : List α) :
    List.Pairwise (fun x y => key y ≤ key x)
      (sortStable (fun x y => key y ≤ key x) l) := by
  induction l with
  | nil => exact List.Pairwise.nil
  | cons a t ih => exact insertStable_pairwise_desc key a _ ih

theorem pyRound2_mem_unit (q : ℚ) (h0 : 0 ≤ q) (h1 : q ≤ 1) :
    0 ≤ pyRound2 q ∧ pyRound2 q ≤ 1 := by
  have hq0 : (0 : ℚ) ≤ 100 * q := by positivity
  have hq1 : 100 * q ≤ 100 := by nlinarith
  have hf0 : 0 ≤ ⌊(100 : ℚ) * q⌋ := Int.le_floor.mpr (by exact_mod_cast hq0)
  have hf1 : ⌊(100 : ℚ) * q⌋ ≤ 100 := by
    have := Int.floor_le_floor hq1
    simpa using this
  have hn : 0 ≤ roundHalfEven (100 * q) ∧ roundHalfEven (100 * q) ≤ 100 := by
    have hfl : (⌊(100 : ℚ) * q⌋ : ℚ) ≤ 100 * q := Int.floor_le _
    simp only [roundHalfEven]
    split_ifs with hc1 hc2 hc3
    · exact ⟨hf0, hf1⟩
    · refine ⟨by omega, ?_⟩
      rcases lt_or_eq_of_le hf1 with h | h
      · omega
      · exfalso
        rw [h] at hc2
        push_cast at hc2
        nlinarith
    · exact ⟨hf0, hf1⟩
    · refine ⟨by omega, ?_⟩
      rcases lt_or_eq_of_le hf1 with h | h
      · omega
      · exfalso
        rw [h] at hc1 hc2
        push_cast at hc1 hc2
        nlinarith
  unfold pyRound2
  constructor
  · exact div_nonneg (by exact_mod_cast hn.1) (by norm_num)
  · rw [div_le_one (by norm_num)]
    exact_mod_cast hn.2

/-- C8 amended: `suggest_folder` returns at most `top_k` candidates in
descending vote order; each candidate's confidence is `votes / total_votes`
rounded to two decimals (`round(·, 2)`), hence lies in `[0, 1]`; the
rounded confidences need not sum to at most 1 (see the counterexample). -/
theorem C8_folder_suggestions (sources : List Str) (limit top_k : Nat) :
    (suggest_folder sources limit top_k).length ≤ top_k ∧
    List.Pairwise (fun a b => b.votes ≤ a.votes)
      (suggest_folder sources limit top_k) ∧
    (∀ s ∈ suggest_folder sources limit top_k,
      s.confidence =
        (if 0 < totalVotesOf sources limit then
          pyRound2 ((s.votes : ℚ) / (totalVotesOf sources limit : ℚ))
        else 0) ∧
      0 ≤ s.confidence ∧ s.confidence ≤ 1) := by
  unfold suggest_folder
  by_cases hemp : (tallyFolders sources limit).1 = []
  · rw [if_pos hemp]
    simp
  · rw [if_neg hemp]
    refine ⟨?_, ?_, ?_⟩
    · rw [List.length_map]
      exact List.length_take_le _ _
    · rw [List.pairwise_map]
      refine List.Pairwise.sublist (List.take_sublist _ _) ?_
      exact sortStable_pairwise_desc (fun (fv : Str × Nat) => fv.2) _
    · intro s hs
      obtain ⟨fv, hfv, rfl⟩ := List.mem_map.mp hs
      have hfv2 : fv ∈ (tallyFolders sources limit).1 :=
        (mem_sortStable _ fv _).mp (List.take_subset _ _ hfv)
      refine ⟨rfl, ?_⟩
      dsimp only
      split_ifs with htot
      · have hle : fv.2 ≤ totalVotesOf sources limit := by
          unfold totalVotesOf
          exact List.single_le_sum (fun x _ => Nat.zero_le x) _
            (List.mem_map_of_mem (·.2) hfv2)
        refine pyRound2_mem_unit _ ?_ ?_
        · positivity
        · rw [div_le_one (by exact_mod_cast htot)]
          exact_mod_cast hle
      · norm_num

/-- C8 witness: the amended properties at the six concrete sources, read
off for the top suggestion. -/
theorem C8_folder_suggestions_witness :
    (suggest_folder c8sources 6 3).length ≤ 3 ∧
    (⟨str "A", 4, pyRound2 ((4 : ℚ) / 6), [str "x", str "y", str "z"]⟩ :
        FolderSuggestion).confidence =
      (if 0 < totalVotesOf c8sources 6 then
        pyRound2 (((4 : Nat) : ℚ) / (totalVotesOf c8sources 6 : ℚ))
      else 0) ∧
    (0 : ℚ) ≤ pyRound2 ((4 : ℚ) / 6) ∧ pyRound2 ((4 : ℚ) / 6) ≤ 1 := by
  have hmem : (⟨str "A", 4, pyRound2 ((4 : ℚ) / 6),
      [str "x", str "y", str "z"]⟩ : FolderSuggestion) ∈
      suggest_folder c8sources 6 3 := by
    rw [c8out_eval]
    exact List.mem_cons_self _ _
  have h := C8_folder_suggestions c8sources 6 3
  exact ⟨h.1, (h.2.2 _ hmem).1, (h.2.2 _ hmem).2.1, (h.2.2 _ hmem).2.2⟩

/-! ## Claim C1 — suggested pairs are distinct and unlinked -/

/-- C1: every suggestion returned by a `suggest_connections` run that
completes within its deadline joins two chunks with distinct `source`
files, and neither file's stem (basename with `".md"` removed) occurs in
the other's comma-split `links` metadata. -/
theorem C1_connections_distinct_unlinked (vault : Str)
    (chunks : List DbChunk) (sim : Nat → Nat → ℚ) (threshold : ℚ)
    (limit : Nat) (incl : List Str) (em : Bool) (minPal : Nat)
    (s : Suggestion)
    (hs : s ∈ suggest_connections false vault chunks sim threshold limit
      incl em minPal) :
    ∃ ci cj : DbChunk,
      s.note_a = pyBasename ci.source ∧ s.note_b = pyBasename cj.source ∧
      ¬ ci.source = cj.source ∧
      ¬ pyReplace (pyBasename cj.source) (str ".md") [] ∈
        splitCh ',' ci.links ∧
      ¬ pyReplace (pyBasename ci.source) (str ".md") [] ∈
        splitCh ',' cj.links := by
  unfold suggest_connections at hs
  rw [if_neg (by simp)] at hs
  unfold suggest_connections_core at hs
  dsimp only at hs
  by_cases hn : (validIndices vault chunks incl em minPal).length < 2
  · rw [if_pos hn] at hs
    exact absurd hs (List.not_mem_nil s)
  · rw [if_neg hn] at hs
    have hs2 : s ∈ (List.filter
        (fun rc => decide (threshold ≤ sim rc.1 rc.2))
        (triuPairs (validIndices vault chunks incl em minPal).length)).filterMap
        (fun rc =>
          let chI := chunkAt chunks
            ((validIndices vault chunks incl em minPal).getD rc.1 0)
          let chJ := chunkAt chunks
            ((validIndices vault chunks incl em minPal).getD rc.2 0)
          if chI.source = chJ.source then none
          else
            let titleI := pyBasename chI.source
            let titleJ := pyBasename chJ.source
            let linksI := splitCh ',' chI.links
            let linksJ := splitCh ',' chJ.links
            let cleanJ := pyReplace titleJ (str ".md") []
            let cleanI := pyReplace titleI (str ".md") []
            if cleanJ ∈ linksI ∨ cleanI ∈ linksJ then none
            else some
              { note_a := titleI
                note_b := titleJ
                similarity := sim rc.1 rc.2
                folder_a := pyDirname chI.source
                folder_b := pyDirname chJ.source
                words_a := wordCount chI.text
                words_b := wordCount chJ.text
                section_a := _extract_section_header chI.text
                section_b := _extract_section_header chJ.text
                reason := str "Similitud " ++ fmt2 (sim rc.1 rc.2) }) :=
      (mem_sortStable _ _ _).mp (List.take_subset _ _ hs)
    obtain ⟨rc, hrc, hf⟩ := List.mem_filterMap.mp hs2
    dsimp only at hf
    by_cases h1 : (chunkAt chunks
        ((validIndices vault chunks incl em minPal).getD rc.1 0)).source =
        (chunkAt chunks
          ((validIndices vault chunks incl em minPal).getD rc.2 0)).source
    · rw [if_pos h1] at hf
      exact absurd hf (by simp)
    · rw [if_neg h1] at hf
      by_cases h2 : pyReplace (pyBasename (chunkAt chunks
            ((validIndices vault chunks incl em minPal).getD rc.2 0)).source)
            (str ".md") [] ∈
          splitCh ',' (chunkAt chunks
            ((validIndices vault chunks incl em minPal).getD rc.1 0)).links ∨
          pyReplace (pyBasename (chunkAt chunks
            ((validIndices vault chunks incl em minPal).getD rc.1 0)).source)
            (str ".md") [] ∈
          splitCh ',' (chunkAt chunks
            ((validIndices vault chunks incl em minPal).getD rc.2 0)).links
      · rw [if_pos h2] at hf
        exact absurd hf (by simp)
      · rw [if_neg h2] at hf
        have hrec := Option.some_inj.mp hf
        refine ⟨chunkAt chunks
            ((validIndices vault chunks incl em minPal).getD rc.1 0),
          chunkAt chunks
            ((validIndices vault chunks incl em minPal).getD rc.2 0),
          ?_, ?_, h1, ?_, ?_⟩
        · rw [← hrec]
        · rw [← hrec]
        · exact fun hmem => h2 (Or.inl hmem)
        · exact fun hmem => h2 (Or.inr hmem)

/-- C1 witness: a two-chunk store with similarity 1 yields exactly the
pair of the two distinct, unlinked notes. -/
theorem C1_connections_distinct_unlinked_witness :
    ((⟨str "Na.md", str "Nb.md", 1, str "/v", str "/v", 3, 3,
        str "Contenido General", str "Contenido General",
        str "Similitud " ++ fmt2 1⟩ : Suggestion) ∈
      suggest_connections false (str "/v") c1chunks (fun _ _ => 1) 1 10 []
        true 1) ∧
    (∃ ci cj : DbChunk,
      (⟨str "Na.md", str "Nb.md", 1, str "/v", str "/v", 3, 3,
        str "Contenido General", str "Contenido General",
        str "Similitud " ++ fmt2 1⟩ : Suggestion).note_a =
          pyBasename ci.source ∧
      (⟨str "Na.md", str "Nb.md", 1, str "/v", str "/v", 3, 3,
        str "Contenido General", str "Contenido General",
        str "Similitud " ++ fmt2 1⟩ : Suggestion).note_b =
          pyBasename cj.source ∧
      ¬ ci.source = cj.source ∧
      ¬ pyReplace (pyBasename cj.source) (str ".md") [] ∈
        splitCh ',' ci.links ∧
      ¬ pyReplace (pyBasename ci.source) (str ".md") [] ∈
        splitCh ',' cj.links) := by
  have hmem : (⟨str "Na.md", str "Nb.md", 1, str "/v", str "/v", 3, 3,
      str "Contenido General", str "Contenido General",
      str "Similitud " ++ fmt2 1⟩ : Suggestion) ∈
      suggest_connections false (str "/v") c1chunks (fun _ _ => 1) 1 10 []
        true 1 := by
    rw [show suggest_connections false (str "/v") c1chunks (fun _ _ => 1) 1
        10 [] true 1 =
      [⟨str "Na.md", str "Nb.md", 1, str "/v", str "/v", 3, 3,
        str "Contenido General", str "Contenido General",
        str "Similitud " ++ fmt2 1⟩] from rfl]
    exact List.mem_cons_self _ _
  exact ⟨hmem, C1_connections_distinct_unlinked (str "/v") c1chunks
    (fun _ _ => 1) 1 10 [] true 1 _ hmem⟩

/-! ## Line and prefix lemmas for the `edit_note` analysis -/

/-- Taking at most the length of the left part of an append. -/
theorem take_app_le (A : Str) : ∀ (b : Str) (n : Nat), n ≤ A.length →
    (A ++ b).take n = A.take n := by
  induction A with
  | nil =>
      intro b n h
      have hn : n = 0 := Nat.le_zero.mp h
      subst hn; rfl
  | cons c t ih =>
      intro b n h
      cases n with
      | zero => rfl
      | succ m =>
          simp only [List.cons_append, List.take_succ_cons]
          rw [ih b m (by simpa using h)]

/-- Dropping at most the length of the left part of an append. -/
theorem drop_app_le (A : Str) : ∀ (b : Str) (n : Nat), n ≤ A.length →
    (A ++ b).drop n = A.drop n ++ b := by
  induction A with
  | nil =>
      intro b n h
      have hn : n = 0 := Nat.le_zero.mp h
      subst hn; rfl
  | cons c t ih =>
      intro b n h
      cases n with
      | zero => rfl
      | succ m =>
          simp only [List.cons_append, List.drop_succ_cons]
          exact ih b m (by simpa using h)

/-- Taking the left length plus `n` of an append. -/
theorem take_len_add (A : Str) : ∀ (b : Str) (n : Nat),
    (A ++ b).take (A.length + n) = A ++ b.take n := by
  induction A with
  | nil => intro b n; simp
  | cons c t ih =>
      intro b n
      simp only [List.cons_append, List.length_cons]
      rw [show t.length + 1 + n = (t.length + n) + 1 by omega,
        List.take_succ_cons, ih]

/-- Dropping the left length plus `n` of an append. -/
theorem drop_len_add (A : Str) : ∀ (b : Str) (n : Nat),
    (A ++ b).drop (A.length + n) = b.drop n := by
  induction A with
  | nil => intro b n; simp
  | cons c t ih =>
      intro b n
      simp only [List.cons_append, List.length_cons]
      rw [show t.length + 1 + n = (t.length + n) + 1 by omega,
        List.drop_succ_cons, ih]

/-- A prefix free of the character `c₀` cannot see past an occurrence of
`c₀`: prefix testing against `a ++ c₀ :: T` equals testing against `a`. -/
theorem isPrefixOf_append_cons (c₀ : Char) :
    ∀ (p a : Str) (T : Str), c₀ ∉ p →
    p.isPrefixOf (a ++ c₀ :: T) = p.isPrefixOf a := by
  intro p
  induction p with
  | nil => intro a T _; simp [List.isPrefixOf]
  | cons x p' ih =>
      intro a T hc
      cases a with
      | nil =>
          simp only [List.nil_append, List.isPrefixOf]
          have hx : (x == c₀) = false := by
            simp only [beq_eq_false_iff_ne, ne_eq]
            intro h; exact hc (h ▸ List.mem_cons_self x p')
          simp [hx]
      | cons y a' =>
          simp only [List.cons_append, List.isPrefixOf, List.append_eq]
          rw [ih a' T (fun h => hc (List.mem_cons_of_mem x h))]

/-- Every list is a prefix of itself extended. -/
theorem isPrefixOf_append_self (p t : Str) : p.isPrefixOf (p ++ t) = true :=
  List.isPrefixOf_iff_prefix.mpr (List.prefix_append p t)

/-- Extract the suffix from a successful prefix test. -/
theorem isPrefixOf_ex {p l : Str} (h : p.isPrefixOf l = true) :
    ∃ t, p ++ t = l :=
  List.isPrefixOf_iff_prefix.mp h

/-- `splitCh` never returns the empty list of segments. -/
theorem splitCh_ne_nil (sep : Char) : ∀ (s : Str), splitCh sep s ≠ [] := by
  intro s
  induction s with
  | nil => simp [splitCh]
  | cons c rest ih =>
      by_cases h : c = sep
      · simp [splitCh, h]
      · simp only [splitCh, if_neg h]
        cases hr : splitCh sep rest with
        | nil => exact absurd hr ih
        | cons a t => simp

/-- Segments produced by `splitCh` do not contain the separator. -/
theorem mem_splitCh_not_sep (sep : Char) :
    ∀ (s : Str) (l : Str), l ∈ splitCh sep s → sep ∉ l := by
  intro s
  induction s with
  | nil =>
      intro l hl
      simp [splitCh] at hl
      simp [hl]
  | cons c rest ih =>
      intro l hl
      by_cases h : c = sep
      · simp only [splitCh, if_pos h] at hl
        rcases List.mem_cons.mp hl with h1 | h1
        · simp [h1]
        · exact ih l h1
      · simp only [splitCh, if_neg h] at hl
        cases hr : splitCh sep rest with
        | nil => exact absurd hr (splitCh_ne_nil sep rest)
        | cons a t =>
            rw [hr] at hl
            rcases List.mem_cons.mp hl with h1 | h1
            · subst h1
              intro hm
              rcases List.mem_cons.mp hm with h2 | h2
              · exact h h2.symm
              · exact ih a (hr ▸ List.mem_cons_self a t) h2
            · exact ih l (hr ▸ List.mem_cons_of_mem a h1)

/-- `joinNl` on a cons with nonempty tail. -/
theorem joinNl_cons_ne (a : Str) (L : List Str) (h : L ≠ []) :
    joinNl (a :: L) = a ++ '\n' :: joinNl L := by
  cases L with
  | nil => exact absurd rfl h
  | cons b t => rfl

/-- `joinNl` commutes with extending the first segment. -/
theorem joinNl_cons_head (c : Char) (h : Str) (t : List Str) :
    joinNl ((c :: h) :: t) = c :: joinNl (h :: t) := by
  cases t with
  | nil => rfl
  | cons b t' => rfl

/-- Re-joining the lines of a document restores the document. -/
theorem joinNl_splitNl : ∀ (cs : Str), joinNl (splitNl cs) = cs := by
  intro cs
  induction cs with
  | nil => rfl
  | cons c rest ih =>
      by_cases h : c = '\n'
      · subst h
        simp only [splitNl, splitCh]
        rw [if_pos trivial]
        rw [joinNl_cons_ne [] (splitCh '\n' rest) (splitCh_ne_nil '\n' rest)]
        simp only [List.nil_append]
        exact congrArg ('\n' :: ·) ih
      · simp only [splitNl, splitCh, if_neg h]
        cases hr : splitCh '\n' rest with
        | nil => exact absurd hr (splitCh_ne_nil '\n' rest)
        | cons a t =>
            rw [joinNl_cons_head]
            have : joinNl (a :: t) = rest := by
              rw [← hr]; exact ih
            rw [this]

/-- A newline-free string is a single line. -/
theorem splitNl_no_nl : ∀ (l : Str), '\n' ∉ l → splitNl l = [l] := by
  intro l
  induction l with
  | nil => intro _; rfl
  | cons c t ih =>
      intro h
      have hc : ¬ c = '\n' := fun hc => h (hc ▸ List.mem_cons_self c t)
      simp only [splitNl, splitCh, if_neg hc]
      have ht : splitCh '\n' t = [t] := ih (fun hm => h (List.mem_cons_of_mem c hm))
      rw [show splitCh '\n' t = splitNl t from rfl] at ht
      rw [show splitCh '\n' t = splitNl t from rfl, ht]

/-- Splitting past a first newline-free line. -/
theorem splitNl_append_nl : ∀ (l T : Str), '\n' ∉ l →
    splitNl (l ++ '\n' :: T) = l :: splitNl T := by
  intro l
  induction l with
  | nil => intro T _; simp [splitNl, splitCh]
  | cons c t ih =>
      intro T h
      have hc : ¬ c = '\n' := fun hc => h (hc ▸ List.mem_cons_self c t)
      simp only [List.cons_append, splitNl, splitCh, if_neg hc]
      have ht := ih T (fun hm => h (List.mem_cons_of_mem c hm))
      simp only [splitNl] at ht
      simp only [List.append_eq]
      rw [ht]

/-- Splitting a join of newline-free lines restores the lines. -/
theorem splitNl_joinNl : ∀ (L : List Str), L ≠ [] →
    (∀ l ∈ L, '\n' ∉ l) → splitNl (joinNl L) = L := by
  intro L
  induction L with
  | nil => intro h _; exact absurd rfl h
  | cons a t ih =>
      intro _ hL
      cases t with
      | nil =>
          show splitNl (joinNl [a]) = [a]
          exact splitNl_no_nl a (hL a (List.mem_cons_self a []))
      | cons b t' =>
          rw [joinNl_cons_ne a (b :: t') (by simp)]
          rw [splitNl_append_nl a _ (hL a (List.mem_cons_self a _))]
          rw [ih (by simp) (fun l hl => hL l (List.mem_cons_of_mem a hl))]

/-- Dropping over a fully-satisfying block continues behind it. -/
theorem dropWhile_append_all {p : Char → Bool} :
    ∀ (l t : Str), l.all p = true →
    (l ++ t).dropWhile p = t.dropWhile p := by
  intro l
  induction l with
  | nil => intro t _; rfl
  | cons c l' ih =>
      intro t h
      have hc : p c = true := (List.all_cons .. ▸ h |> Bool.and_elim_left)
      simp only [List.cons_append, List.dropWhile_cons, hc, if_true]
      exact ih t (List.all_cons .. ▸ h |> Bool.and_elim_right)

/-- A take within the satisfying run satisfies the predicate throughout. -/
theorem take_all_of_le_takeWhile {p : Char → Bool} (r : Str) (w : Nat)
    (hw : w ≤ (r.takeWhile p).length) : (r.take w).all p = true := by
  have h1 : r.take w = (r.takeWhile p).take w := by
    conv_lhs => rw [← List.takeWhile_append_dropWhile (p := p) (l := r)]
    exact take_app_le _ _ _ hw
  rw [h1]
  exact List.all_eq_true.mpr fun a ha =>
    List.mem_takeWhile_imp (List.take_subset w _ ha)

/-- A block holding a failing element bounds the satisfying run. -/
theorem takeWhile_append_any {p : Char → Bool} :
    ∀ (l t : Str), (∃ x ∈ l, p x = false) →
    (l ++ t).takeWhile p = l.takeWhile p := by
  intro l
  induction l with
  | nil => intro t h; rcases h with ⟨x, hx, _⟩; exact absurd hx (List.not_mem_nil x)
  | cons c l' ih =>
      intro t h
      by_cases hc : p c = true
      · simp only [List.cons_append, List.takeWhile_cons, hc, if_true]
        rcases h with ⟨x, hx, hpx⟩
        rcases List.mem_cons.mp hx with h1 | h1
        · exact absurd (h1 ▸ hpx) (by simp [hc])
        · rw [ih t ⟨x, h1, hpx⟩]
      · have hc' : p c = false := Bool.eq_false_iff.mpr hc
        simp only [List.cons_append, List.takeWhile_cons, hc',
          Bool.false_eq_true, if_false]

/-- A failing separator stops the satisfying run. -/
theorem takeWhile_append_stop {p : Char → Bool} (c : Char) (hc : p c = false) :
    ∀ (l t : Str), (l ++ c :: t).takeWhile p = l.takeWhile p := by
  intro l
  induction l with
  | nil => intro t; simp [List.takeWhile_cons, hc]
  | cons d l' ih =>
      intro t
      by_cases hd : p d = true
      · simp only [List.cons_append, List.takeWhile_cons, hd, if_true]
        rw [ih t]
      · have hd' : p d = false := Bool.eq_false_iff.mpr hd
        simp only [List.cons_append, List.takeWhile_cons, hd',
          Bool.false_eq_true, if_false]

/-- `valRun` is insensitive to text behind a newline. -/
theorem valRun_append_nl (a t : Str) : valRun (a ++ '\n' :: t) = valRun a := by
  unfold valRun
  rw [takeWhile_append_stop '\n' (by decide)]

/-- `dotRun` is insensitive to text behind a newline. -/
theorem dotRun_append_nl (a t : Str) : dotRun (a ++ '\n' :: t) = dotRun a := by
  unfold dotRun
  rw [takeWhile_append_stop '\n' (by decide)]

/-- `wsRun` stops inside a block holding a non-space character. -/
theorem wsRun_append (r t : Str) (h : ∃ x ∈ r, isPySpace x = false) :
    wsRun (r ++ t) = wsRun r := by
  unfold wsRun
  rw [takeWhile_append_any r t h]

/-- The satisfying run is bounded by the list. -/
theorem valRun_le_length (a : Str) : valRun a ≤ a.length :=
  (List.takeWhile_sublist _).length_le

/-- The `.`-run is bounded by the list. -/
theorem dotRun_le_length (a : Str) : dotRun a ≤ a.length :=
  (List.takeWhile_sublist _).length_le

/-- The whitespace run is bounded by the list. -/
theorem wsRun_le_length (a : Str) : wsRun a ≤ a.length :=
  (List.takeWhile_sublist _).length_le

/-- `$` placement is insensitive to text behind a newline. -/
theorem atEOL_append_nl (s t : Str) : atEOL (s ++ '\n' :: t) = atEOL s := by
  cases s with
  | nil => rfl
  | cons c s' => rfl

/-- The optional closing quote is matched within the line. -/
theorem tryQ2_append_nl (s t : Str) : tryQ2 (s ++ '\n' :: t) = tryQ2 s := by
  cases s with
  | nil =>
      show tryQ2 ('\n' :: t) = tryQ2 []
      simp only [tryQ2]
      rw [if_neg (show ¬ (isQuoteCh '\n' = true) by decide),
        if_pos (show atEOL ('\n' :: t) = true from rfl)]
  | cons c s' =>
      simp only [List.cons_append, tryQ2]
      rw [atEOL_append_nl, show (c :: (s' ++ '\n' :: t)) = ((c :: s') ++ '\n' :: t)
        from rfl, atEOL_append_nl]

/-- The backtracking value matcher is matched within the line. -/
theorem goVal_append_nl (a t : Str) :
    ∀ (v : Nat), v ≤ a.length → goVal v (a ++ '\n' :: t) = goVal v a := by
  intro v
  induction v with
  | zero => intro _; rfl
  | succ m ih =>
      intro h
      simp only [goVal]
      rw [drop_app_le a _ (m + 1) h, show a.drop (m+1) ++ '\n' :: t =
        (a.drop (m+1) ++ '\n' :: t) from rfl, tryQ2_append_nl]
      cases tryQ2 (a.drop (m + 1)) with
      | some q => rfl
      | none => exact ih (Nat.le_of_succ_le h)

/-- `tryVal` is matched within the line. -/
theorem tryVal_append_nl (a t : Str) : tryVal (a ++ '\n' :: t) = tryVal a := by
  unfold tryVal
  rw [valRun_append_nl, goVal_append_nl a t (valRun a) (valRun_le_length a)]

/-- `tryQ1Val` is matched within the line. -/
theorem tryQ1Val_append_nl (a t : Str) :
    tryQ1Val (a ++ '\n' :: t) = tryQ1Val a := by
  cases a with
  | nil =>
      show tryQ1Val ('\n' :: t) = tryQ1Val []
      have h2 : valRun ('\n' :: t) = 0 := by
        unfold valRun
        rw [List.takeWhile_cons, if_neg (by decide)]
        rfl
      simp only [tryQ1Val, if_neg (show ¬ (isQuoteCh '\n' = true) by decide)]
      unfold tryVal
      rw [h2]
      rfl
  | cons c a' =>
      simp only [List.cons_append, tryQ1Val]
      by_cases hc : isQuoteCh c
      · simp only [hc, if_true]
        rw [tryVal_append_nl]
      · have hcf : isQuoteCh c = false := Bool.eq_false_iff.mpr hc
        simp only [hcf, Bool.false_eq_true, if_false]
        rw [show (c :: (a' ++ '\n' :: t)) = ((c :: a') ++ '\n' :: t) from rfl,
          tryVal_append_nl]

/-- The whitespace backtracker of the `updated:` tail is matched within
the line. -/
theorem goWs_append_nl (r t : Str) :
    ∀ (n : Nat), n ≤ r.length → goWs n (r ++ '\n' :: t) = goWs n r := by
  intro n
  induction n with
  | zero =>
      intro _
      simp only [goWs]
      rw [show (r ++ '\n' :: t) = (r ++ '\n' :: t) from rfl, tryQ1Val_append_nl]
  | succ m ih =>
      intro h
      simp only [goWs]
      rw [drop_app_le r _ (m + 1) h, tryQ1Val_append_nl]
      cases tryQ1Val (r.drop (m + 1)) with
      | some q => rfl
      | none => exact ih (Nat.le_of_succ_le h)

/-- The whole `updated:` tail matcher works within the line when the line
remainder holds a non-space character. -/
theorem updTail_append_nl (r t : Str) (h : ∃ x ∈ r, isPySpace x = false) :
    updTail (r ++ '\n' :: t) = updTail r := by
  unfold updTail
  rw [wsRun_append r _ h, goWs_append_nl r t (wsRun r) (wsRun_le_length r)]

/-- The backtracking `.+$` matcher is matched within the line. -/
theorem goDot_append_nl (a t : Str) :
    ∀ (v : Nat), v ≤ a.length → goDot v (a ++ '\n' :: t) = goDot v a := by
  intro v
  induction v with
  | zero => intro _; rfl
  | succ m ih =>
      intro h
      simp only [goDot]
      rw [drop_app_le a _ (m + 1) h, atEOL_append_nl]
      cases atEOL (a.drop (m + 1)) with
      | true => rfl
      | false => simpa using ih (Nat.le_of_succ_le h)

/-- `tryDotEOL` is matched within the line. -/
theorem tryDotEOL_append_nl (a t : Str) :
    tryDotEOL (a ++ '\n' :: t) = tryDotEOL a := by
  unfold tryDotEOL
  rw [dotRun_append_nl, goDot_append_nl a t (dotRun a) (dotRun_le_length a)]

/-- The whitespace backtracker of the `created:` tail is matched within
the line. -/
theorem goWsCr_append_nl (r t : Str) :
    ∀ (n : Nat), n ≤ r.length → goWsCr n (r ++ '\n' :: t) = goWsCr n r := by
  intro n
  induction n with
  | zero =>
      intro _
      simp only [goWsCr]
      rw [tryDotEOL_append_nl]
  | succ m ih =>
      intro h
      simp only [goWsCr]
      rw [drop_app_le r _ (m + 1) h, tryDotEOL_append_nl]
      cases tryDotEOL (r.drop (m + 1)) with
      | some q => rfl
      | none => exact ih (Nat.le_of_succ_le h)

/-- The whole `created:` tail matcher works within the line when the line
remainder holds a non-space character. -/
theorem crTail_append_nl (r t : Str) (h : ∃ x ∈ r, isPySpace x = false) :
    crTail (r ++ '\n' :: t) = crTail r := by
  unfold crTail
  rw [wsRun_append r _ h, goWsCr_append_nl r t (wsRun r) (wsRun_le_length r)]

/-- A quote character is not Python whitespace. -/
theorem isQuoteCh_not_space {c : Char} (h : isQuoteCh c = true) :
    isPySpace c = false := by
  unfold isQuoteCh at h
  rcases Bool.or_eq_true_iff.mp h with h1 | h1
  · rw [show c = '"' from of_decide_eq_true h1]; decide
  · rw [show c = '\'' from of_decide_eq_true h1]; decide

/-- `$` at a newline-free position means the end of the text. -/
theorem atEOL_no_nl {z : Str} (h : atEOL z = true) (hn : '\n' ∉ z) :
    z = [] := by
  cases z with
  | nil => rfl
  | cons c z' =>
      have : c = '\n' := of_decide_eq_true h
      exact absurd (this ▸ List.mem_cons_self c z') hn

/-- Shape of a successful optional-closing-quote match on a newline-free
remainder: nothing, or a single quote character. -/
theorem tryQ2_shape {z : Str} {q2 : Nat} (h : tryQ2 z = some q2)
    (hn : '\n' ∉ z) :
    (z = [] ∧ q2 = 0) ∨ (∃ c, z = [c] ∧ isQuoteCh c = true ∧ q2 = 1) := by
  cases z with
  | nil =>
      left
      exact ⟨rfl, by simpa [tryQ2] using h.symm⟩
  | cons c z' =>
      simp only [tryQ2] at h
      by_cases hq : isQuoteCh c = true
      · rw [if_pos hq] at h
        by_cases he : atEOL z' = true
        · rw [if_pos he] at h
          right
          have hz' : z' = [] :=
            atEOL_no_nl he (fun hm => hn (List.mem_cons_of_mem c hm))
          exact ⟨c, by rw [hz'], hq, by simpa using h.symm⟩
        · rw [if_neg he] at h
          by_cases he2 : atEOL (c :: z') = true
          · have : c = '\n' := of_decide_eq_true he2
            exact absurd (this ▸ List.mem_cons_self c z') hn
          · rw [if_neg he2] at h
            exact absurd h (by simp)
      · rw [if_neg hq] at h
        by_cases he2 : atEOL (c :: z') = true
        · have : c = '\n' := of_decide_eq_true he2
          exact absurd (this ▸ List.mem_cons_self c z') hn
        · rw [if_neg he2] at h
          exact absurd h (by simp)

/-- Shape of a successful backtracking value match. -/
theorem goVal_shape {u : Str} :
    ∀ {m v q2 : Nat}, goVal m u = some (v, q2) →
    1 ≤ v ∧ v ≤ m ∧ tryQ2 (u.drop v) = some q2 := by
  intro m
  induction m with
  | zero => intro v q2 h; exact absurd h (by simp [goVal])
  | succ k ih =>
      intro v q2 h
      simp only [goVal] at h
      cases heq : tryQ2 (u.drop (k + 1)) with
      | some q =>
          rw [heq] at h
          have h1 : v = k + 1 ∧ q2 = q := by
            have := h.symm
            simp only [Option.some_inj] at this
            exact ⟨congrArg Prod.fst this, congrArg Prod.snd this⟩
          rcases h1 with ⟨rfl, rfl⟩
          exact ⟨Nat.succ_le_succ (Nat.zero_le k), Nat.le_refl _, heq⟩
      | none =>
          rw [heq] at h
          have := ih h
          exact ⟨this.1, Nat.le_succ_of_le this.2.1, this.2.2⟩

/-- Shape of a successful `tryVal` match. -/
theorem tryVal_shape {u : Str} {v q2 : Nat} (h : tryVal u = some (v, q2)) :
    1 ≤ v ∧ v ≤ valRun u ∧ tryQ2 (u.drop v) = some q2 :=
  goVal_shape h

/-- Shape of a successful optional-opening-quote-and-value match. -/
theorem tryQ1Val_shape {s : Str} {q1 v q2 : Nat}
    (h : tryQ1Val s = some (q1, v, q2)) :
    q1 ≤ 1 ∧ tryVal (s.drop q1) = some (v, q2) ∧
      (q1 = 1 → ∃ c s', s = c :: s' ∧ isQuoteCh c = true) := by
  cases s with
  | nil => exact absurd h (by simp [tryQ1Val])
  | cons c s' =>
      simp only [tryQ1Val] at h
      by_cases hq : isQuoteCh c = true
      · rw [if_pos hq] at h
        cases htv : tryVal s' with
        | none => rw [htv] at h; exact absurd h (by simp)
        | some p =>
            rw [htv] at h
            simp only [Option.map_some', Option.some_inj] at h
            have hq1 : q1 = 1 := (congrArg Prod.fst h).symm
            have hrest : (v, q2) = p := by
              have := congrArg Prod.snd h
              simpa using this.symm
            subst hq1
            refine ⟨Nat.le_refl 1, ?_, fun _ => ⟨c, s', rfl, hq⟩⟩
            rw [show (c :: s').drop 1 = s' from rfl, htv, hrest]
      · rw [if_neg hq] at h
        cases htv : tryVal (c :: s') with
        | none => rw [htv] at h; exact absurd h (by simp)
        | some p =>
            rw [htv] at h
            simp only [Option.map_some', Option.some_inj] at h
            have hq1 : q1 = 0 := (congrArg Prod.fst h).symm
            have hrest : (v, q2) = p := by
              have := congrArg Prod.snd h
              simpa using this.symm
            subst hq1
            refine ⟨Nat.zero_le 1, ?_, fun hc => absurd hc (by simp)⟩
            rw [List.drop_zero, htv, hrest]

/-- Shape of a successful whitespace-backtracking match for `updated:`. -/
theorem goWs_shape {r : Str} :
    ∀ {n w q1 v q2 : Nat}, goWs n r = some (w, q1, v, q2) →
    w ≤ n ∧ tryQ1Val (r.drop w) = some (q1, v, q2) := by
  intro n
  induction n with
  | zero =>
      intro w q1 v q2 h
      simp only [goWs] at h
      cases heq : tryQ1Val r with
      | none => rw [heq] at h; exact absurd h (by simp)
      | some t =>
          rw [heq] at h
          simp only [Option.map_some', Option.some_inj] at h
          have hw : w = 0 := (congrArg Prod.fst h).symm
          have hrest : (q1, v, q2) = t := by
            have := congrArg Prod.snd h
            simpa using this.symm
          subst hw
          rw [List.drop_zero, heq, hrest]
          exact ⟨Nat.le_refl 0, rfl⟩
  | succ k ih =>
      intro w q1 v q2 h
      simp only [goWs] at h
      cases heq : tryQ1Val (r.drop (k + 1)) with
      | some t =>
          rw [heq] at h
          simp only [Option.some_inj] at h
          have hw : w = k + 1 := (congrArg Prod.fst h).symm
          have hrest : (q1, v, q2) = t := by
            have := congrArg Prod.snd h
            simpa using this.symm
          subst hw
          rw [heq, hrest]
          exact ⟨Nat.le_refl _, rfl⟩
      | none =>
          rw [heq] at h
          have := ih h
          exact ⟨Nat.le_succ_of_le this.1, this.2⟩

/-- Shape of a successful backtracking `.+` match. -/
theorem goDot_shape {u : Str} :
    ∀ {m v : Nat}, goDot m u = some v →
    1 ≤ v ∧ v ≤ m ∧ atEOL (u.drop v) = true := by
  intro m
  induction m with
  | zero => intro v h; exact absurd h (by simp [goDot])
  | succ k ih =>
      intro v h
      simp only [goDot] at h
      by_cases he : atEOL (u.drop (k + 1)) = true
      · rw [if_pos he] at h
        have hv : v = k + 1 := by simpa using h.symm
        subst hv
        exact ⟨Nat.succ_le_succ (Nat.zero_le k), Nat.le_refl _, he⟩
      · rw [if_neg he] at h
        have := ih h
        exact ⟨this.1, Nat.le_succ_of_le this.2.1, this.2.2⟩

/-- Shape of a successful whitespace-backtracking match for `created:`. -/
theorem goWsCr_shape {r : Str} :
    ∀ {n w v : Nat}, goWsCr n r = some (w, v) →
    w ≤ n ∧ tryDotEOL (r.drop w) = some v := by
  intro n
  induction n with
  | zero =>
      intro w v h
      simp only [goWsCr] at h
      cases heq : tryDotEOL r with
      | none => rw [heq] at h; exact absurd h (by simp)
      | some t =>
          rw [heq] at h
          simp only [Option.map_some', Option.some_inj] at h
          have hw : w = 0 := (congrArg Prod.fst h).symm
          have hv : v = t := (by simpa using congrArg Prod.snd h : t = v).symm
          subst hw
          rw [List.drop_zero, heq, hv]
          exact ⟨Nat.le_refl 0, rfl⟩
  | succ k ih =>
      intro w v h
      simp only [goWsCr] at h
      cases heq : tryDotEOL (r.drop (k + 1)) with
      | some t =>
          rw [heq] at h
          simp only [Option.some_inj] at h
          have hw : w = k + 1 := (congrArg Prod.fst h).symm
          have hv : v = t := (by simpa using congrArg Prod.snd h : t = v).symm
          subst hw
          rw [heq, hv]
          exact ⟨Nat.le_refl _, rfl⟩
      | none =>
          rw [heq] at h
          have := ih h
          exact ⟨Nat.le_succ_of_le this.1, this.2⟩

/-- Full characterization of a successful `updated:` tail match on a
newline-free line remainder: leading whitespace, an optional opening
quote, a value reaching the end of the line up to an optional closing
quote. -/
theorem updTail_shape {r : Str} {w q1 v q2 : Nat}
    (h : updTail r = some (w, q1, v, q2)) (hn : '\n' ∉ r) :
    (r.take w).all isPySpace = true ∧
    ((r.drop w).take q1 = [] ∨
      ∃ c, (r.drop w).take q1 = [c] ∧ isQuoteCh c = true) ∧
    w + q1 + v ≤ r.length ∧
    (r.drop (w + q1 + v) = [] ∨
      ∃ c, r.drop (w + q1 + v) = [c] ∧ isQuoteCh c = true) := by
  unfold updTail at h
  obtain ⟨hw, h1⟩ := goWs_shape h
  obtain ⟨hq1le, htv, hq1⟩ := tryQ1Val_shape h1
  rw [List.drop_drop] at htv
  obtain ⟨hv1, hvle, hq2⟩ := tryVal_shape htv
  rw [List.drop_drop] at hq2
  have hwlen : w ≤ r.length := le_trans hw (wsRun_le_length r)
  have hwq1 : w + q1 ≤ r.length := by
    rcases Nat.le_one_iff_eq_zero_or_eq_one.mp hq1le with h0 | h1'
    · omega
    · obtain ⟨c, s', hs, _⟩ := hq1 h1'
      have : (r.drop w).length = r.length - w := List.length_drop w r
      rw [hs] at this
      simp only [List.length_cons] at this
      omega
  have hvbound : v ≤ r.length - (w + q1) := by
    have := valRun_le_length (r.drop (w + q1))
    have hlen : (r.drop (w + q1)).length = r.length - (w + q1) :=
      List.length_drop _ r
    omega
  have htotal : w + q1 + v ≤ r.length := by omega
  refine ⟨?_, ?_, htotal, ?_⟩
  · exact take_all_of_le_takeWhile r w hw
  · rcases Nat.le_one_iff_eq_zero_or_eq_one.mp hq1le with h0 | h1'
    · left; rw [h0]; rfl
    · obtain ⟨c, s', hs, hq⟩ := hq1 h1'
      right
      exact ⟨c, by rw [h1', hs]; rfl, hq⟩
  · have hsub : '\n' ∉ r.drop (w + q1 + v) :=
      fun hm => hn (List.drop_subset _ r hm)
    rcases tryQ2_shape hq2 hsub with ⟨hz, _⟩ | ⟨c, hz, hq, _⟩
    · left; exact hz
    · right; exact ⟨c, hz, hq⟩

/-- Full characterization of a successful `created:` tail match on a
newline-free line remainder: the match reaches exactly the end of the
line and consumes at least one value character. -/
theorem crTail_shape {r : Str} {w v : Nat}
    (h : crTail r = some (w, v)) (hn : '\n' ∉ r) :
    w + v = r.length ∧ 1 ≤ v := by
  unfold crTail at h
  obtain ⟨hw, h1⟩ := goWsCr_shape h
  unfold tryDotEOL at h1
  obtain ⟨hv1, hvle, he⟩ := goDot_shape h1
  rw [List.drop_drop] at he
  have hsub : '\n' ∉ r.drop (w + v) := fun hm => hn (List.drop_subset _ r hm)
  have hnil : r.drop (w + v) = [] := atEOL_no_nl he hsub
  have hge : r.length ≤ w + v := by
    have := List.drop_eq_nil_iff.mp hnil
    omega
  have hwlen : w ≤ r.length := le_trans hw (wsRun_le_length r)
  have : v ≤ r.length - w := by
    have := dotRun_le_length (r.drop w)
    have hlen : (r.drop w).length = r.length - w := List.length_drop w r
    omega
  exact ⟨by omega, hv1⟩

/-- A valid current-date rendering is nonempty. -/
theorem ahoraOK_ne {a : Str} (h : ahoraOK a = true) : a ≠ [] := by
  unfold ahoraOK at h
  exact of_decide_eq_true (Bool.and_elim_left h)

/-- Character-level facts of a valid current-date rendering. -/
theorem ahoraOK_mem {a : Str} (h : ahoraOK a = true) {c : Char} (hc : c ∈ a) :
    isPySpace c = false ∧ isQuoteCh c = false ∧ c ≠ '\n' := by
  unfold ahoraOK at h
  have h2 := Bool.and_elim_right h
  have h3 := List.all_eq_true.mp h2 c hc
  have hws := of_decide_eq_true (Bool.and_elim_left (Bool.and_elim_left h3))
  have hqt := of_decide_eq_true (Bool.and_elim_right (Bool.and_elim_left h3))
  have hnl := of_decide_eq_true (Bool.and_elim_right h3)
  exact ⟨Bool.eq_false_iff.mpr hws, Bool.eq_false_iff.mpr hqt, hnl⟩

/-- Any line of the form `updated:` + whitespace + optional quote + the
current date + optional quote carries the current date as its `updated:`
value. -/
theorem isUpdatedLineFor_build (ahora wsp q1p z : Str)
    (hws : wsp.all isPySpace = true)
    (hq : q1p = [] ∨ ∃ c, q1p = [c] ∧ isQuoteCh c = true)
    (hz : z = [] ∨ ∃ c, z = [c] ∧ isQuoteCh c = true)
    (hok : ahoraOK ahora = true) :
    isUpdatedLineFor ahora
      (str "updated:" ++ (wsp ++ (q1p ++ (ahora ++ z)))) = true := by
  obtain ⟨h1, t1, ha⟩ := List.exists_cons_of_ne_nil (ahoraOK_ne hok)
  have hh1 : isPySpace h1 = false ∧ isQuoteCh h1 = false ∧ h1 ≠ '\n' :=
    ahoraOK_mem hok (ha ▸ List.mem_cons_self h1 t1)
  have hdrop : (str "updated:" ++ (wsp ++ (q1p ++ (ahora ++ z)))).drop 8 =
      wsp ++ (q1p ++ (ahora ++ z)) := by
    rw [show (8 : Nat) = (str "updated:").length from rfl, List.drop_left]
  have hdw : ((str "updated:" ++ (wsp ++ (q1p ++ (ahora ++ z)))).drop 8
      |>.dropWhile isPySpace) = (q1p ++ (ahora ++ z)).dropWhile isPySpace := by
    rw [hdrop]
    exact dropWhile_append_all wsp _ hws
  rcases hq with h0 | ⟨c, hc, hqc⟩
  · have hrr : ((str "updated:" ++ (wsp ++ (q1p ++ (ahora ++ z)))).drop 8
        |>.dropWhile isPySpace) = h1 :: (t1 ++ z) := by
      rw [hdw, h0, List.nil_append, ha, List.cons_append,
        List.dropWhile_cons, hh1.1]
      simp
    unfold isUpdatedLineFor
    rw [isPrefixOf_append_self, Bool.true_and]
    dsimp only
    rw [hrr]
    dsimp only
    simp only [hh1.2.1, Bool.false_eq_true, if_false]
    rw [show h1 :: (t1 ++ z) = ahora ++ z by rw [ha]; rfl,
      isPrefixOf_append_self, Bool.true_and,
      show (ahora ++ z).drop ahora.length = z from List.drop_left ahora z]
    rcases hz with hz0 | ⟨d, hd, hqd⟩
    · rw [hz0]
    · rw [hd]; exact hqd
  · have hrr : ((str "updated:" ++ (wsp ++ (q1p ++ (ahora ++ z)))).drop 8
        |>.dropWhile isPySpace) = c :: (ahora ++ z) := by
      rw [hdw, hc, List.cons_append, List.dropWhile_cons,
        isQuoteCh_not_space hqc]
      simp
    unfold isUpdatedLineFor
    rw [isPrefixOf_append_self, Bool.true_and]
    dsimp only
    rw [hrr]
    dsimp only
    simp only [hqc, if_true]
    rw [isPrefixOf_append_self, Bool.true_and,
      show (ahora ++ z).drop ahora.length = z from List.drop_left ahora z]
    rcases hz with hz0 | ⟨d, hd, hqd⟩
    · rw [hz0]
    · rw [hd]; exact hqd

/-- The `updated:` scanner fires at a line start whose tail matches. -/
theorem subUpdatedGo_hit (ahora cs : Str) (w q1 v q2 : Nat)
    (hp : (str "updated:").isPrefixOf cs = true)
    (hu : updTail (cs.drop 8) = some (w, q1, v, q2)) :
    subUpdatedGo ahora cs true =
      cs.take (8 + w + q1) ++ ahora ++ cs.drop (8 + w + q1 + v) := by
  cases cs with
  | nil => exact absurd hp (by decide)
  | cons c rest =>
      simp only [subUpdatedGo]
      rw [if_pos ⟨trivial, hp⟩, hu]

/-- The `updated:` scanner never fires mid-line. -/
theorem subUpdatedGo_skip_false (ahora : Str) :
    ∀ (a T : Str), '\n' ∉ a →
    subUpdatedGo ahora (a ++ '\n' :: T) false =
      a ++ '\n' :: subUpdatedGo ahora T true := by
  intro a
  induction a with
  | nil =>
      intro T _
      simp only [List.nil_append, subUpdatedGo]
      rw [if_neg (fun hcond => absurd hcond.1 (by simp))]
      rfl
  | cons c a' ih =>
      intro T h
      have hc : c ≠ '\n' := fun e => h (e ▸ List.mem_cons_self c a')
      simp only [List.cons_append, subUpdatedGo]
      rw [if_neg (fun hcond => absurd hcond.1 (by simp))]
      dsimp only
      simp only [List.append_eq]
      rw [show (decide (c = '\n')) = false by simp [hc]]
      rw [ih T (fun hm => h (List.mem_cons_of_mem c hm))]

/-- The `updated:` scanner walks past a line it does not match. -/
theorem subUpdatedGo_skip_line (ahora a T : Str) (hna : '\n' ∉ a)
    (hnp : (str "updated:").isPrefixOf a = false) :
    subUpdatedGo ahora (a ++ '\n' :: T) true =
      a ++ '\n' :: subUpdatedGo ahora T true := by
  cases a with
  | nil =>
      simp only [List.nil_append, subUpdatedGo]
      rw [if_neg (fun hcond => absurd hcond.2 (by
        rw [show ((str "updated:").isPrefixOf ('\n' :: T)) = false from rfl]
        simp))]
      rfl
  | cons c a' =>
      have hc : c ≠ '\n' := fun e => hna (e ▸ List.mem_cons_self c a')
      simp only [List.cons_append, subUpdatedGo]
      rw [if_neg (fun hcond => absurd hcond.2 (by
        simp only [List.append_eq]
        rw [show (c :: (a' ++ '\n' :: T)) = ((c :: a') ++ '\n' :: T) from rfl,
          isPrefixOf_append_cons '\n' _ _ T (by decide), hnp]
        simp))]
      dsimp only
      simp only [List.append_eq]
      rw [show (decide (c = '\n')) = false by simp [hc]]
      rw [subUpdatedGo_skip_false ahora a' T
        (fun hm => hna (List.mem_cons_of_mem c hm))]

/-- The `created:` scanner fires at a line start whose tail matches. -/
theorem subCreatedGo_hit (ahora cs : Str) (w v : Nat)
    (hp : (str "created:").isPrefixOf cs = true)
    (hu : crTail (cs.drop 8) = some (w, v)) :
    subCreatedGo ahora cs true =
      cs.take (8 + w + v) ++ '\n' :: (str "updated: ") ++ ahora ++
        cs.drop (8 + w + v) := by
  cases cs with
  | nil => exact absurd hp (by decide)
  | cons c rest =>
      simp only [subCreatedGo]
      rw [if_pos ⟨trivial, hp⟩, hu]

/-- The `created:` scanner never fires mid-line. -/
theorem subCreatedGo_skip_false (ahora : Str) :
    ∀ (a T : Str), '\n' ∉ a →
    subCreatedGo ahora (a ++ '\n' :: T) false =
      a ++ '\n' :: subCreatedGo ahora T true := by
  intro a
  induction a with
  | nil =>
      intro T _
      simp only [List.nil_append, subCreatedGo]
      rw [if_neg (fun hcond => absurd hcond.1 (by simp))]
      rfl
  | cons c a' ih =>
      intro T h
      have hc : c ≠ '\n' := fun e => h (e ▸ List.mem_cons_self c a')
      simp only [List.cons_append, subCreatedGo]
      rw [if_neg (fun hcond => absurd hcond.1 (by simp))]
      dsimp only
      simp only [List.append_eq]
      rw [show (decide (c = '\n')) = false by simp [hc]]
      rw [ih T (fun hm => h (List.mem_cons_of_mem c hm))]

/-- The `created:` scanner walks past a line it does not match. -/
theorem subCreatedGo_skip_line (ahora a T : Str) (hna : '\n' ∉ a)
    (hnp : (str "created:").isPrefixOf a = false) :
    subCreatedGo ahora (a ++ '\n' :: T) true =
      a ++ '\n' :: subCreatedGo ahora T true := by
  cases a with
  | nil =>
      simp only [List.nil_append, subCreatedGo]
      rw [if_neg (fun hcond => absurd hcond.2 (by
        rw [show ((str "created:").isPrefixOf ('\n' :: T)) = false from rfl]
        simp))]
      rfl
  | cons c a' =>
      have hc : c ≠ '\n' := fun e => hna (e ▸ List.mem_cons_self c a')
      simp only [List.cons_append, subCreatedGo]
      rw [if_neg (fun hcond => absurd hcond.2 (by
        simp only [List.append_eq]
        rw [show (c :: (a' ++ '\n' :: T)) = ((c :: a') ++ '\n' :: T) from rfl,
          isPrefixOf_append_cons '\n' _ _ T (by decide), hnp]
        simp))]
      dsimp only
      simp only [List.append_eq]
      rw [show (decide (c = '\n')) = false by simp [hc]]
      rw [subCreatedGo_skip_false ahora a' T
        (fun hm => hna (List.mem_cons_of_mem c hm))]

/-- Substituting the `updated:` value on a well-formed first line: the
substitution stays within the line and produces a line carrying the
current date. -/
theorem subUpdated_hit_line (ahora l tail : Str)
    (htail : tail = [] ∨ ∃ T, tail = '\n' :: T)
    (hl : '\n' ∉ l)
    (hlp : (str "updated:").isPrefixOf l = true)
    (hok : updLineOK l = true)
    (hA : ahoraOK ahora = true) :
    ∃ nl : Str, subUpdatedGo ahora (l ++ tail) true = nl ++ tail ∧
      '\n' ∉ nl ∧ (str "updated:").isPrefixOf nl = true ∧
      isUpdatedLineFor ahora nl = true := by
  obtain ⟨r, hr⟩ := isPrefixOf_ex hlp
  have hdrop8 : l.drop 8 = r := by
    rw [← hr, show (8 : Nat) = (str "updated:").length from rfl, List.drop_left]
  have hlen : l.length = 8 + r.length := by
    rw [← hr, List.length_append]; rfl
  have hnr : '\n' ∉ r := by
    intro hm
    exact hl (by rw [← hr]; exact List.mem_append_right _ hm)
  unfold updLineOK at hok
  have h1 := Bool.and_elim_left hok
  rw [hdrop8] at h1
  have hex : ∃ x ∈ r, isPySpace x = false := by
    obtain ⟨x, hxm, hxp⟩ := List.any_eq_true.mp h1
    exact ⟨x, hxm, Bool.eq_false_iff.mpr (of_decide_eq_true hxp)⟩
  have h2 := Bool.and_elim_right hok
  rw [hdrop8] at h2
  obtain ⟨⟨w, q1, v, q2⟩, heq⟩ := Option.isSome_iff_exists.mp h2
  obtain ⟨hall, hq1s, htot, hzs⟩ := updTail_shape heq hnr
  have hb1 : 8 + w + q1 ≤ l.length := by omega
  have hb2 : 8 + w + q1 + v ≤ l.length := by omega
  have h84 : (8 : Nat) + w + q1 = (str "updated:").length + (w + q1) := by
    rw [show (str "updated:").length = 8 from rfl]; omega
  have h85 : (8 : Nat) + w + q1 + v = (str "updated:").length +
      (w + q1 + v) := by
    rw [show (str "updated:").length = 8 from rfl]; omega
  have hnl_take : l.take (8 + w + q1) =
      str "updated:" ++ (r.take w ++ (r.drop w).take q1) := by
    rw [← List.take_add]
    rw [← hr, h84, take_len_add]
  have hnl_drop : l.drop (8 + w + q1 + v) = r.drop (w + q1 + v) := by
    rw [← hr, h85, drop_len_add]
  refine ⟨str "updated:" ++ (r.take w ++ ((r.drop w).take q1 ++
    (ahora ++ r.drop (w + q1 + v)))), ?_, ?_, ?_, ?_⟩
  · rcases htail with h0 | ⟨T, hT⟩
    · subst h0
      rw [List.append_nil, List.append_nil]
      rw [subUpdatedGo_hit ahora l w q1 v q2 hlp (by rw [hdrop8]; exact heq)]
      rw [hnl_take, hnl_drop]
      simp [List.append_assoc]
    · subst hT
      have hp2 : (str "updated:").isPrefixOf (l ++ '\n' :: T) = true := by
        rw [isPrefixOf_append_cons '\n' _ l T (by decide)]
        exact hlp
      have hu2 : updTail ((l ++ '\n' :: T).drop 8) = some (w, q1, v, q2) := by
        rw [drop_app_le l _ 8 (by omega), hdrop8, updTail_append_nl r T hex]
        exact heq
      rw [subUpdatedGo_hit ahora (l ++ '\n' :: T) w q1 v q2 hp2 hu2]
      rw [take_app_le l _ _ hb1, drop_app_le l _ _ hb2]
      rw [hnl_take, hnl_drop]
      simp [List.append_assoc]
  · intro hm
    rcases List.mem_append.mp hm with hm1 | hm2
    · exact absurd hm1 (by decide)
    rcases List.mem_append.mp hm2 with hm3 | hm4
    · exact hnr (List.take_subset w r hm3)
    rcases List.mem_append.mp hm4 with hm5 | hm6
    · exact hnr (List.drop_subset w r (List.take_subset q1 _ hm5))
    rcases List.mem_append.mp hm6 with hm7 | hm8
    · exact (ahoraOK_mem hA hm7).2.2 rfl
    · exact hnr (List.drop_subset _ r hm8)
  · exact isPrefixOf_append_self _ _
  · exact isUpdatedLineFor_build ahora (r.take w) ((r.drop w).take q1)
      (r.drop (w + q1 + v)) hall hq1s hzs hA

/-- Inserting `updated:` after a well-formed `created:` first line: the
insertion goes exactly behind the line. -/
theorem subCreated_hit_line (ahora l tail : Str)
    (htail : tail = [] ∨ ∃ T, tail = '\n' :: T)
    (hl : '\n' ∉ l)
    (hlp : (str "created:").isPrefixOf l = true)
    (hok : crLineOK l = true) :
    subCreatedGo ahora (l ++ tail) true =
      l ++ ('\n' :: (str "updated: " ++ ahora)) ++ tail := by
  obtain ⟨r, hr⟩ := isPrefixOf_ex hlp
  have hdrop8 : l.drop 8 = r := by
    rw [← hr, show (8 : Nat) = (str "created:").length from rfl, List.drop_left]
  have hlen : l.length = 8 + r.length := by
    rw [← hr, List.length_append]; rfl
  have hnr : '\n' ∉ r := by
    intro hm
    exact hl (by rw [← hr]; exact List.mem_append_right _ hm)
  unfold crLineOK at hok
  have h1 := Bool.and_elim_left hok
  rw [hdrop8] at h1
  have hex : ∃ x ∈ r, isPySpace x = false := by
    obtain ⟨x, hxm, hxp⟩ := List.any_eq_true.mp h1
    exact ⟨x, hxm, Bool.eq_false_iff.mpr (of_decide_eq_true hxp)⟩
  have h2 := Bool.and_elim_right hok
  rw [hdrop8] at h2
  obtain ⟨⟨w, v⟩, heq⟩ := Option.isSome_iff_exists.mp h2
  obtain ⟨hwv, hv1⟩ := crTail_shape heq hnr
  have hlwv : 8 + w + v = l.length := by omega
  rcases htail with h0 | ⟨T, hT⟩
  · subst h0
    rw [List.append_nil]
    rw [subCreatedGo_hit ahora l w v hlp (by rw [hdrop8]; exact heq)]
    rw [hlwv, List.take_length, List.drop_length]
    simp [List.append_assoc]
  · subst hT
    have hp2 : (str "created:").isPrefixOf (l ++ '\n' :: T) = true := by
      rw [isPrefixOf_append_cons '\n' _ l T (by decide)]
      exact hlp
    have hu2 : crTail ((l ++ '\n' :: T).drop 8) = some (w, v) := by
      rw [drop_app_le l _ 8 (by omega), hdrop8, crTail_append_nl r T hex]
      exact heq
    rw [subCreatedGo_hit ahora (l ++ '\n' :: T) w v hp2 hu2]
    rw [take_app_le l _ _ (by omega), drop_app_le l _ _ (by omega)]
    rw [hlwv, List.take_length, List.drop_length]
    simp [List.append_assoc]

/-- The `updated:` substitution on a line decomposition: earlier lines
without the prefix are kept, the first `updated:` line is rewritten in
place. -/
theorem subUpdatedGo_lines (ahora : Str) :
    ∀ (pre : List Str) (l : Str) (post : List Str),
    (∀ x ∈ pre, '\n' ∉ x ∧ (str "updated:").isPrefixOf x = false) →
    '\n' ∉ l → (str "updated:").isPrefixOf l = true →
    updLineOK l = true → ahoraOK ahora = true →
    ∃ nl, subUpdatedGo ahora (joinNl (pre ++ l :: post)) true =
        joinNl (pre ++ nl :: post) ∧
      '\n' ∉ nl ∧ (str "updated:").isPrefixOf nl = true ∧
      isUpdatedLineFor ahora nl = true := by
  intro pre
  induction pre with
  | nil =>
      intro l post _ hl hlp hok hA
      cases post with
      | nil =>
          obtain ⟨nl, he, h1, h2, h3⟩ := subUpdated_hit_line ahora l []
            (Or.inl rfl) hl hlp hok hA
          rw [List.append_nil] at he
          exact ⟨nl, by simpa [joinNl] using he, h1, h2, h3⟩
      | cons p post' =>
          obtain ⟨nl, he, h1, h2, h3⟩ := subUpdated_hit_line ahora l
            ('\n' :: joinNl (p :: post'))
            (Or.inr ⟨joinNl (p :: post'), rfl⟩) hl hlp hok hA
          refine ⟨nl, ?_, h1, h2, h3⟩
          rw [List.nil_append, List.nil_append,
            joinNl_cons_ne l (p :: post') (by simp),
            joinNl_cons_ne nl (p :: post') (by simp)]
          exact he
  | cons a pre' ih =>
      intro l post hpre hl hlp hok hA
      obtain ⟨nl, he, h1, h2, h3⟩ := ih l post
        (fun x hx => hpre x (List.mem_cons_of_mem a hx)) hl hlp hok hA
      refine ⟨nl, ?_, h1, h2, h3⟩
      rw [List.cons_append, joinNl_cons_ne a (pre' ++ l :: post) (by simp),
        List.cons_append, joinNl_cons_ne a (pre' ++ nl :: post) (by simp)]
      rw [subUpdatedGo_skip_line ahora a _
        (hpre a (List.mem_cons_self a pre')).1
        (hpre a (List.mem_cons_self a pre')).2]
      rw [he]

/-- The `updated:` insertion on a line decomposition: the new line goes
right behind the first `created:` line. -/
theorem subCreatedGo_lines (ahora : Str) :
    ∀ (pre : List Str) (l : Str) (post : List Str),
    (∀ x ∈ pre, '\n' ∉ x ∧ (str "created:").isPrefixOf x = false) →
    '\n' ∉ l → (str "created:").isPrefixOf l = true →
    crLineOK l = true →
    subCreatedGo ahora (joinNl (pre ++ l :: post)) true =
      joinNl (pre ++ l :: (str "updated: " ++ ahora) :: post) := by
  intro pre
  induction pre with
  | nil =>
      intro l post _ hl hlp hok
      cases post with
      | nil =>
          have he := subCreated_hit_line ahora l [] (Or.inl rfl) hl hlp hok
          rw [List.append_nil] at he
          rw [List.nil_append, List.nil_append]
          rw [show joinNl [l] = l from rfl, he,
            joinNl_cons_ne l [str "updated: " ++ ahora] (by simp)]
          simp [joinNl]
      | cons p post' =>
          have he := subCreated_hit_line ahora l
            ('\n' :: joinNl (p :: post'))
            (Or.inr ⟨joinNl (p :: post'), rfl⟩) hl hlp hok
          rw [List.nil_append, List.nil_append,
            joinNl_cons_ne l (p :: post') (by simp), he,
            joinNl_cons_ne l ((str "updated: " ++ ahora) :: p :: post')
              (by simp),
            joinNl_cons_ne (str "updated: " ++ ahora) (p :: post') (by simp)]
          simp [List.append_assoc]
  | cons a pre' ih =>
      intro l post hpre hl hlp hok
      rw [List.cons_append, joinNl_cons_ne a (pre' ++ l :: post) (by simp),
        List.cons_append,
        joinNl_cons_ne a (pre' ++ l :: (str "updated: " ++ ahora) :: post)
          (by simp)]
      rw [subCreatedGo_skip_line ahora a _
        (hpre a (List.mem_cons_self a pre')).1
        (hpre a (List.mem_cons_self a pre')).2]
      rw [ih l post (fun x hx => hpre x (List.mem_cons_of_mem a hx)) hl hlp hok]

/-- Decomposition at the first index satisfying a predicate. -/
theorem firstIdxWith_some {α : Type} (p : α → Bool) (d : α) :
    ∀ (L : List α) (k : Nat), firstIdxWith p L = some k →
    ∃ pre l post, L = pre ++ l :: post ∧ pre.length = k ∧
      (∀ x ∈ pre, p x = false) ∧ p l = true ∧ L.getD k d = l := by
  intro L
  induction L with
  | nil => intro k h; exact absurd h (by simp [firstIdxWith])
  | cons a t ih =>
      intro k h
      simp only [firstIdxWith] at h
      by_cases hp : p a = true
      · rw [if_pos hp] at h
        have hk : k = 0 := by simpa using h.symm
        subst hk
        exact ⟨[], a, t, rfl, rfl, by simp, hp, rfl⟩
      · rw [if_neg hp] at h
        cases hft : firstIdxWith p t with
        | none => rw [hft] at h; exact absurd h (by simp)
        | some k' =>
            rw [hft] at h
            simp only [Option.map_some', Option.some_inj] at h
            obtain ⟨pre, l, post, h1, h2, h3, h4, h5⟩ := ih k' hft
            refine ⟨a :: pre, l, post, by rw [h1]; rfl, by simp [h2, h], ?_,
              h4, ?_⟩
            · intro x hx
              rcases List.mem_cons.mp hx with h6 | h6
              · rw [h6]; exact Bool.eq_false_iff.mpr hp
              · exact h3 x h6
            · rw [← h]
              simpa using h5
  
/-- When no element satisfies the predicate. -/
theorem firstIdxWith_none {α : Type} (p : α → Bool) :
    ∀ (L : List α), firstIdxWith p L = none → ∀ x ∈ L, p x = false := by
  intro L
  induction L with
  | nil => intro _ x hx; exact absurd hx (List.not_mem_nil x)
  | cons a t ih =>
      intro h x hx
      simp only [firstIdxWith] at h
      by_cases hp : p a = true
      · rw [if_pos hp] at h; exact absurd h (by simp)
      · rw [if_neg hp] at h
        rcases List.mem_cons.mp hx with h1 | h1
        · rw [h1]; exact Bool.eq_false_iff.mpr hp
        · exact ih (Option.map_eq_none'.mp h) x h1

/-- The line-start scanner matches nothing mid-line. -/
theorem hasLineStartGo_false (p : Str) :
    ∀ (l : Str), '\n' ∉ l → hasLineStartGo p l false = false := by
  intro l
  induction l with
  | nil => intro _; rfl
  | cons c t ih =>
      intro h
      have hc : c ≠ '\n' := fun e => h (e ▸ List.mem_cons_self c t)
      simp only [hasLineStartGo, Bool.false_and, Bool.false_or]
      rw [show (decide (c = '\n')) = false from by simp [hc]]
      exact ih (fun hm => h (List.mem_cons_of_mem c hm))

/-- On a single line, the line-start scanner is the prefix test. -/
theorem hasLineStart_single (p l : Str) (hl : '\n' ∉ l) :
    hasLineStart p l = p.isPrefixOf l := by
  cases l with
  | nil => simp [hasLineStart, hasLineStartGo]
  | cons c t =>
      have hc : c ≠ '\n' := fun e => hl (e ▸ List.mem_cons_self c t)
      simp only [hasLineStart, hasLineStartGo, Bool.true_and]
      rw [show (decide (c = '\n')) = false from by simp [hc]]
      rw [hasLineStartGo_false p t (fun hm => hl (List.mem_cons_of_mem c hm))]
      exact Bool.or_false _

/-- The mid-line continuation from a skipped first line. -/
theorem hasLineStartGo_false_append (p : Str) :
    ∀ (a T : Str), '\n' ∉ a →
    hasLineStartGo p (a ++ '\n' :: T) false = hasLineStartGo p T true := by
  intro a
  induction a with
  | nil =>
      intro T _
      simp only [List.nil_append, hasLineStartGo, Bool.false_and,
        Bool.false_or]
      rfl
  | cons c a' ih =>
      intro T h
      have hc : c ≠ '\n' := fun e => h (e ▸ List.mem_cons_self c a')
      simp only [List.cons_append, hasLineStartGo, Bool.false_and,
        Bool.false_or]
      rw [show (decide (c = '\n')) = false from by simp [hc]]
      exact ih T (fun hm => h (List.mem_cons_of_mem c hm))

/-- A nonempty newline-free literal cannot match at a newline. -/
theorem isPrefixOf_nl_cons {p : Str} (hp : '\n' ∉ p) (hpne : p ≠ []) (T : Str) :
    p.isPrefixOf ('\n' :: T) = false := by
  obtain ⟨c, p', rfl⟩ := List.exists_cons_of_ne_nil hpne
  have hc : c ≠ '\n' := fun e => hp (e ▸ List.mem_cons_self c p')
  simp [List.isPrefixOf, hc]

/-- Scanning past the first line of a document. -/
theorem hasLineStart_cons_line (p : Str) (hp : '\n' ∉ p) (hpne : p ≠ [])
    (a T : Str) (ha : '\n' ∉ a) :
    hasLineStart p (a ++ '\n' :: T) =
      (p.isPrefixOf a || hasLineStart p T) := by
  cases a with
  | nil =>
      simp only [List.nil_append, hasLineStart, hasLineStartGo, Bool.true_and]
      rw [isPrefixOf_nl_cons hp hpne T]
      rw [show p.isPrefixOf [] = false from by
        obtain ⟨c, p', rfl⟩ := List.exists_cons_of_ne_nil hpne; rfl]
      simp only [Bool.false_or]
      rfl
  | cons c a' =>
      have hc : c ≠ '\n' := fun e => ha (e ▸ List.mem_cons_self c a')
      simp only [List.cons_append, hasLineStart, hasLineStartGo, Bool.true_and]
      simp only [List.append_eq]
      rw [show (decide (c = '\n')) = false from by simp [hc]]
      rw [hasLineStartGo_false_append p a' T
        (fun hm => ha (List.mem_cons_of_mem c hm))]
      rw [show (c :: (a' ++ '\n' :: T)) = ((c :: a') ++ '\n' :: T) from rfl,
        isPrefixOf_append_cons '\n' p (c :: a') T hp]

/-- The multiline `^p` search over a joined line list is a search over
its lines. -/
theorem hasLineStart_join (p : Str) (hp : '\n' ∉ p) (hpne : p ≠ []) :
    ∀ (L : List Str), L ≠ [] → (∀ l ∈ L, '\n' ∉ l) →
    hasLineStart p (joinNl L) = L.any (fun l => p.isPrefixOf l) := by
  intro L
  induction L with
  | nil => intro h _; exact absurd rfl h
  | cons a t ih =>
      intro _ hL
      cases t with
      | nil =>
          rw [show joinNl [a] = a from rfl,
            hasLineStart_single p a (hL a (List.mem_cons_self a []))]
          simp
      | cons b t' =>
          rw [joinNl_cons_ne a (b :: t') (by simp),
            hasLineStart_cons_line p hp hpne a _
              (hL a (List.mem_cons_self a _)),
            ih (by simp) (fun l hl => hL l (List.mem_cons_of_mem a hl))]
          simp

/-- A line with the `updated:` prefix does not carry the `created:` key. -/
theorem updated_prefix_not_created {x : Str}
    (h : (str "updated:").isPrefixOf x = true) :
    (str "created:").isPrefixOf x = false := by
  obtain ⟨t, rfl⟩ := isPrefixOf_ex h
  rfl

/-- The inserted `updated: ` line starts with the `updated:` key. -/
theorem inserted_updated_key (ahora : Str) :
    (str "updated:").isPrefixOf (str "updated: " ++ ahora) = true := by
  rw [show str "updated: " ++ ahora = str "updated:" ++ (' ' :: ahora)
    from rfl]
  exact isPrefixOf_append_self _ _

/-- The inserted `updated: ` line carries the current date as its value. -/
theorem inserted_updated_line (ahora : Str) (hA : ahoraOK ahora = true) :
    isUpdatedLineFor ahora (str "updated: " ++ ahora) = true := by
  have h := isUpdatedLineFor_build ahora [' '] [] [] (by decide)
    (Or.inl rfl) (Or.inl rfl) hA
  simp only [List.nil_append, List.append_nil] at h
  rw [show str "updated: " ++ ahora = str "updated:" ++ ([' '] ++ ahora)
    from rfl]
  exact h

/-- The `updated:` touch of `edit_note` on a ready document: all
`created:` lines are kept verbatim and some line carries the current date
as its `updated:` value. -/
theorem touch_updated_spec (ahora cs : Str)
    (hdash : (str "---").isPrefixOf cs = true)
    (hready : editNoteReady cs = true)
    (hA : ahoraOK ahora = true) :
    (splitNl (touch_updated ahora cs)).filter
        (fun l => (str "created:").isPrefixOf l) =
      (splitNl cs).filter (fun l => (str "created:").isPrefixOf l) ∧
    ∃ l ∈ splitNl (touch_updated ahora cs), isUpdatedLineFor ahora l = true := by
  have hlines_nl : ∀ l ∈ splitNl cs, '\n' ∉ l := mem_splitCh_not_sep '\n' cs
  have hjoin : joinNl (splitNl cs) = cs := joinNl_splitNl cs
  have hHLjoinU := hasLineStart_join (str "updated:") (by decide) (by decide)
    (splitNl cs) (splitCh_ne_nil '\n' cs) hlines_nl
  have hHLjoinC := hasLineStart_join (str "created:") (by decide) (by decide)
    (splitNl cs) (splitCh_ne_nil '\n' cs) hlines_nl
  rw [hjoin] at hHLjoinU hHLjoinC
  simp only [editNoteReady] at hready
  cases hu : firstIdxWith (fun l => (str "updated:").isPrefixOf l)
      (splitNl cs) with
  | some k =>
      rw [hu] at hready
      change updLineOK ((splitNl cs).getD k []) = true at hready
      obtain ⟨pre, l, post, hLdec, hklen, hpre, hpl, hgetD⟩ :=
        firstIdxWith_some (fun l => (str "updated:").isPrefixOf l) []
          (splitNl cs) k hu
      rw [hgetD] at hready
      have hmeml : l ∈ splitNl cs := by
        rw [hLdec]; exact List.mem_append_right _ (List.mem_cons_self _ _)
      have hHL : hasLineStart (str "updated:") cs = true := by
        rw [hHLjoinU]
        exact List.any_eq_true.mpr ⟨l, hmeml, hpl⟩
      unfold touch_updated
      rw [if_pos hdash, if_pos hHL]
      unfold subUpdatedValue
      have hprelift : ∀ x ∈ pre, '\n' ∉ x ∧
          (str "updated:").isPrefixOf x = false := by
        intro x hx
        refine ⟨hlines_nl x ?_, hpre x hx⟩
        rw [hLdec]
        exact List.mem_append_left _ hx
      obtain ⟨nl, he, hnlnl, hnlpre, hnlupd⟩ := subUpdatedGo_lines ahora pre l
        post hprelift (hlines_nl l hmeml) hpl hready hA
      have hcs_eq : cs = joinNl (pre ++ l :: post) := by
        rw [← hLdec]; exact hjoin.symm
      have hsplit_old : splitNl (joinNl (pre ++ l :: post)) =
          pre ++ l :: post := by
        refine splitNl_joinNl _ (by simp) ?_
        intro x hx
        exact hlines_nl x (by rw [hLdec]; exact hx)
      have hsplit_new : splitNl (joinNl (pre ++ nl :: post)) =
          pre ++ nl :: post := by
        refine splitNl_joinNl _ (by simp) ?_
        intro x hx
        rcases List.mem_append.mp hx with h1 | h1
        · exact hlines_nl x (by rw [hLdec]; exact List.mem_append_left _ h1)
        rcases List.mem_cons.mp h1 with h2 | h2
        · rw [h2]; exact hnlnl
        · exact hlines_nl x
            (by rw [hLdec]
                exact List.mem_append_right _ (List.mem_cons_of_mem l h2))
      rw [hcs_eq, he, hsplit_new, hsplit_old]
      constructor
      · have h1 : (str "created:").isPrefixOf nl = false :=
          updated_prefix_not_created hnlpre
        have h2 : (str "created:").isPrefixOf l = false :=
          updated_prefix_not_created hpl
        simp [List.filter_append, List.filter_cons, h1, h2]
      · exact ⟨nl, List.mem_append_right _ (List.mem_cons_self _ _), hnlupd⟩
  | none =>
      rw [hu] at hready
      cases hc : firstIdxWith (fun l => (str "created:").isPrefixOf l)
          (splitNl cs) with
      | none =>
          rw [hc] at hready
          exact absurd hready (by simp)
      | some k =>
          rw [hc] at hready
          change crLineOK ((splitNl cs).getD k []) = true at hready
          obtain ⟨pre, l, post, hLdec, hklen, hpre, hpl, hgetD⟩ :=
            firstIdxWith_some (fun l => (str "created:").isPrefixOf l) []
              (splitNl cs) k hc
          rw [hgetD] at hready
          have hmeml : l ∈ splitNl cs := by
            rw [hLdec]; exact List.mem_append_right _ (List.mem_cons_self _ _)
          have hHLf : hasLineStart (str "updated:") cs = false := by
            rw [hHLjoinU]
            rw [List.any_eq_false]
            intro x hx
            rw [firstIdxWith_none _ (splitNl cs) hu x hx]
            simp
          have hHLc : hasLineStart (str "created:") cs = true := by
            rw [hHLjoinC]
            exact List.any_eq_true.mpr ⟨l, hmeml, hpl⟩
          unfold touch_updated
          rw [if_pos hdash, if_neg (by rw [hHLf]; simp), if_pos hHLc]
          unfold subCreatedInsert
          have hcs_eq : cs = joinNl (pre ++ l :: post) := by
            rw [← hLdec]; exact hjoin.symm
          have hnew_nl : '\n' ∉ str "updated: " ++ ahora := by
            intro hm
            rcases List.mem_append.mp hm with h1 | h1
            · exact absurd h1 (by decide)
            · exact (ahoraOK_mem hA h1).2.2 rfl
          have hsplit_old : splitNl (joinNl (pre ++ l :: post)) =
              pre ++ l :: post := by
            refine splitNl_joinNl _ (by simp) ?_
            intro x hx
            exact hlines_nl x (by rw [hLdec]; exact hx)
          have hsplit_new : splitNl (joinNl (pre ++ l ::
              (str "updated: " ++ ahora) :: post)) =
              pre ++ l :: (str "updated: " ++ ahora) :: post := by
            refine splitNl_joinNl _ (by simp) ?_
            intro x hx
            rcases List.mem_append.mp hx with h1 | h1
            · exact hlines_nl x (by rw [hLdec]; exact List.mem_append_left _ h1)
            rcases List.mem_cons.mp h1 with h2 | h2
            · rw [h2]; exact hlines_nl l hmeml
            rcases List.mem_cons.mp h2 with h3 | h3
            · rw [h3]; exact hnew_nl
            · exact hlines_nl x
                (by rw [hLdec]
                    exact List.mem_append_right _ (List.mem_cons_of_mem l h3))
          rw [hcs_eq]
          have hprelift : ∀ x ∈ pre, '\n' ∉ x ∧
              (str "created:").isPrefixOf x = false := by
            intro x hx
            refine ⟨hlines_nl x ?_, hpre x hx⟩
            rw [hLdec]
            exact List.mem_append_left _ hx
          rw [subCreatedGo_lines ahora pre l post hprelift
            (hlines_nl l hmeml) hpl hready]
          rw [hsplit_new, hsplit_old]
          constructor
          · have h1 : (str "created:").isPrefixOf
                (str "updated: " ++ ahora) = false :=
              updated_prefix_not_created (inserted_updated_key ahora)
            simp [List.filter_append, List.filter_cons, h1, hpl]
          · exact ⟨str "updated: " ++ ahora,
              List.mem_append_right _
                (List.mem_cons_of_mem l (List.mem_cons_self _ _)),
              inserted_updated_line ahora hA⟩

/-! ## Claim C4 — `edit_note` and the `updated:` touch -/

/-- C4 counterexample: on a front-matter document whose `updated:` line
has an empty value, `edit_note` succeeds but the greedy `\s*` of the
substitution crosses the newline and consumes the closing `---` as the
value: the result has no `updated:` line carrying the current date (the
date lands on a line of its own and the closing fence is destroyed). -/
theorem C4_edit_note_empty_updated_value :
    (edit_note envPrivate (fun _ => some (str "/v/a.md")) fsOneNote
      (str "a") c4content c4date).1 =
      .ok (.ok (str "Nota editada correctamente: a.md")) ∧
    fsRead (edit_note envPrivate (fun _ => some (str "/v/a.md")) fsOneNote
      (str "a") c4content c4date).2 (str "/v/a.md") =
      some (str "---\ncreated: 2020-01-02\nupdated:\n2026-01-02\nx") ∧
    ¬ ∃ l ∈ splitNl (edit_note_content c4date c4content),
        isUpdatedLineFor (simple_date c4date) l = true := by
  refine ⟨rfl, rfl, ?_⟩
  decide

/-- C4 (amended): when the vault is configured, the note is found and
allowed, the text holds no date placeholders, it opens with `---`, and
its first `updated:` (or, failing that, `created:`) line is well formed
— a non-whitespace value confined to that line — then `edit_note`
succeeds, writes the processed content, keeps every `created:` line
verbatim, and the written document has an `updated:` line whose value is
the current date. -/
theorem C4_edit_note_amended (env : SecEnv) (find : Str → Option Str)
    (fs : FS) (nombre nuevo : Str) (d : DateParts) (p : Str)
    (hv : env.vaultConfigured = true)
    (hfind : find nombre = some p)
    (hchk : (check_path_access env p (str "editar")).1 = true)
    (hpd : _process_date_placeholders d nuevo = nuevo)
    (hdash : (str "---").isPrefixOf nuevo = true)
    (hready : editNoteReady nuevo = true)
    (hok : ahoraOK (simple_date d) = true) :
    (edit_note env find fs nombre nuevo d).1 =
      .ok (.ok (str "Nota editada correctamente: " ++
        pyRelativeTo env.vault p)) ∧
    fsRead (edit_note env find fs nombre nuevo d).2 p =
      some (edit_note_content d nuevo) ∧
    (splitNl (edit_note_content d nuevo)).filter
        (fun l => (str "created:").isPrefixOf l) =
      (splitNl nuevo).filter (fun l => (str "created:").isPrefixOf l) ∧
    ∃ l ∈ splitNl (edit_note_content d nuevo),
      isUpdatedLineFor (simple_date d) l = true := by
  have hcontent : edit_note_content d nuevo =
      touch_updated (simple_date d) nuevo := by
    unfold edit_note_content
    rw [hpd]
  have hspec := touch_updated_spec (simple_date d) nuevo hdash hready hok
  have hplumb : edit_note env find fs nombre nuevo d =
      (.ok (.ok (str "Nota editada correctamente: " ++
        pyRelativeTo env.vault p)),
       fsWrite fs p (edit_note_content d nuevo)) := by
    unfold edit_note
    rw [if_neg (by simp [hv]), hfind]
    dsimp only
    rw [if_neg (by simp [hchk])]
  refine ⟨by rw [hplumb], ?_, ?_, ?_⟩
  · rw [hplumb]
    exact assocFind_assocSet p (edit_note_content d nuevo) fs.files
  · rw [hcontent]
    exact hspec.1
  · rw [hcontent]
    exact hspec.2

/-- C4 witness: a concrete well-formed note edited on 2026-01-02. -/
theorem C4_edit_note_amended_witness :
    (edit_note envPrivate (fun _ => some (str "/v/a.md")) fsOneNote
      (str "a") (str "---\ncreated: 2020-01-02\nupdated: 2021-03-04\n---\nx")
      c4date).1 =
      .ok (.ok (str "Nota editada correctamente: " ++
        pyRelativeTo envPrivate.vault (str "/v/a.md"))) ∧
    fsRead (edit_note envPrivate (fun _ => some (str "/v/a.md")) fsOneNote
      (str "a") (str "---\ncreated: 2020-01-02\nupdated: 2021-03-04\n---\nx")
      c4date).2 (str "/v/a.md") =
      some (edit_note_content c4date
        (str "---\ncreated: 2020-01-02\nupdated: 2021-03-04\n---\nx")) ∧
    (splitNl (edit_note_content c4date
        (str "---\ncreated: 2020-01-02\nupdated: 2021-03-04\n---\nx"))).filter
        (fun l => (str "created:").isPrefixOf l) =
      (splitNl (str "---\ncreated: 2020-01-02\nupdated: 2021-03-04\n---\nx")
        ).filter (fun l => (str "created:").isPrefixOf l) ∧
    ∃ l ∈ splitNl (edit_note_content c4date
        (str "---\ncreated: 2020-01-02\nupdated: 2021-03-04\n---\nx")),
      isUpdatedLineFor (simple_date c4date) l = true :=
  C4_edit_note_amended envPrivate (fun _ => some (str "/v/a.md")) fsOneNote
    (str "a") (str "---\ncreated: 2020-01-02\nupdated: 2021-03-04\n---\nx")
    c4date (str "/v/a.md") rfl rfl (by decide) (by decide) (by decide)
    (by decide) (by decide)
